import Mathlib

/-!
Verification of the k-mcp gateway core: the resource resolver, the JWT
token verifier, the resource_get namespace elicitation, and the
resource_apply pipeline (YAML document splitting, dry-run-before-apply,
per-cluster confirmation).

Strings are modelled as lists of characters (`Str`), so that all string
operations used by the program (split, trim, lowercase, substring match,
formatting) are executable and amenable to induction.  Go's `strings`
functions operate on UTF-8 text; the model restricts whitespace and
lowercasing to the ASCII range, which covers every string the program
manipulates (Kubernetes identifiers and fixed message templates).
-/

set_option maxHeartbeats 1000000

deriving instance DecidableEq for Except

namespace KMcp

abbrev Str := List Char

/-- Model of Go `unicode.IsSpace` restricted to the ASCII whitespace the
program encounters. -/
def isSpaceChar (c : Char) : Bool :=
  c == ' ' || c == '\t' || c == '\n' || c == '\r'

/-- Model of Go `strings.TrimSpace`. -/
def trimStr (s : Str) : Str :=
  ((s.dropWhile isSpaceChar).reverse.dropWhile isSpaceChar).reverse

/-- Model of Go `strings.ToLower` (ASCII range). -/
def lowerStr (s : Str) : Str := s.map Char.toLower

/-- Model of Go `strings.Join`. -/
def joinStr (sep : Str) : List Str → Str
  | [] => []
  | [x] => x
  | x :: xs => x ++ sep ++ joinStr sep xs

/-- Decimal digits of a natural number, for `fmt.Sprintf("%d", n)`. -/
def natToStr (n : Nat) : Str := Nat.toDigits 10 n

/-- Splits `s` before and after its first occurrence of `ch`; if `ch` does
not occur the whole string is the first component.  Used to model
`strings.Index`-based splitting in the Kubernetes schema parsers. -/
def splitFirstChar (ch : Char) : Str → Str × Str
  | [] => ([], [])
  | c :: rest =>
    if c == ch then ([], rest)
    else
      let p := splitFirstChar ch rest
      (c :: p.1, p.2)

/-- Number of occurrences of `ch` in `s` (Go `strings.Count` with a
one-character separator). -/
def countChar (ch : Char) (s : Str) : Nat := s.countP (fun c => c == ch)

/-- Model of Go `strconv.Atoi` restricted to values that fit (overflow is
irrelevant at the sizes the program handles): optional sign followed by at
least one digit. -/
def digitsVal (s : Str) : Option Nat :=
  if s.isEmpty then none
  else
    s.foldl
      (fun acc c =>
        match acc with
        | none => none
        | some n => if c.isDigit then some (n * 10 + (c.toNat - '0'.toNat)) else none)
      (some 0)

/-- Model of Go `strings.Contains hay needle`. -/
def strContains (hay needle : Str) : Bool :=
  needle.isPrefixOf hay ||
    match hay with
    | [] => false
    | _ :: t => strContains t needle

def atoiInt (s : Str) : Option Int :=
  match s with
  | '-' :: rest => (digitsVal rest).map (fun n => -(n : Int))
  | '+' :: rest => (digitsVal rest).map (fun n => (n : Int))
  | _ => (digitsVal s).map (fun n => (n : Int))

/-! ## Kubernetes schema types and parsers

Embedded from `k8s.io/apimachinery/pkg/runtime/schema`, the library the
resolver delegates parsing to. -/

structure GroupVersionResource where
  group : Str
  version : Str
  resource : Str

deriving DecidableEq

structure GroupVersionKind where
  group : Str
  version : Str
  kind : Str

deriving DecidableEq

structure GroupKind where
  group : Str
  kind : Str

deriving DecidableEq

structure GroupVersion where
  group : Str
  version : Str

deriving DecidableEq

/-- `schema.ParseGroupKind`: everything before the first dot is the Kind,
everything after it the group; with no dot the whole string is the Kind. -/
def parseGroupKind (s : Str) : GroupKind :=
  if countChar '.' s == 0 then ⟨[], s⟩
  else
    let p := splitFirstChar '.' s
    ⟨p.2, p.1⟩

/-- `schema.ParseKindArg`: when the argument has at least two dots it is
split as `Kind.version.group` (the group keeps any further dots); the
`GroupKind` reading is always produced as well. -/
def parseKindArg (s : Str) : Option GroupVersionKind × GroupKind :=
  let gvk :=
    if 2 ≤ countChar '.' s then
      let p := splitFirstChar '.' s
      let q := splitFirstChar '.' p.2
      some (⟨q.2, q.1, p.1⟩ : GroupVersionKind)
    else none
  (gvk, parseGroupKind s)

/-- `schema.ParseGroupVersion`: `""` and `"/"` denote the empty
group/version; one slash separates group from version; more than one slash
is an error. -/
def parseGroupVersion (s : Str) : Option GroupVersion :=
  if s == [] || s == ['/'] then some ⟨[], []⟩
  else
    match countChar '/' s with
    | 0 => some ⟨[], s⟩
    | 1 =>
      let p := splitFirstChar '/' s
      some ⟨p.1, p.2⟩
    | _ => none

/-! ## Discovery catalogue -/

structure APIResource where
  name : Str
  kind : Str
  namespaced : Bool

deriving DecidableEq

structure APIResourceList where
  groupVersion : Str
  apiResources : List APIResource

deriving DecidableEq

/-! ## Denylist and resolver

The resolver of record (`FindResource` with the restricted-resource
denylist) is exercised by `pkg/mcp/resource_test.go` but its defining file
is absent from the sources; only historical snapshots of `FindResource`
without the denylist survive.  The definitions below are therefore
modelled from the spec (§3 Denylist, §4.3 Resource Resolver), following
the control flow of the surviving snapshots and the expectations of the
test file. -/

/-- Modelled from the spec: the compile-time denylist of `isRestrictedResource`,
whose defining file is absent from the sources — secrets and
serviceaccounts in the core (empty) group, and any resource whose group
ends with `rbac.authorization.k8s.io`. -/
def isRestrictedResource (gvr : GroupVersionResource) : Bool :=
  (gvr.group == [] && (gvr.resource == "secrets".data || gvr.resource == "serviceaccounts".data))
    || "rbac.authorization.k8s.io".data.isSuffixOf gvr.group

structure RMatch where
  gvr : GroupVersionResource
  namespaced : Bool

deriving DecidableEq

def matchOfEntry (gv : GroupVersion) (r : APIResource) : RMatch :=
  ⟨⟨gv.group, gv.version, r.name⟩, r.namespaced⟩

/-- Exact-match test: with a parsed `Kind.version.group` the version is
compared too; otherwise Kind and group suffice. -/
def entryExact (gvkOpt : Option GroupVersionKind) (gk : GroupKind)
    (gv : GroupVersion) (r : APIResource) : Bool :=
  match gvkOpt with
  | some gvk => r.kind == gvk.kind && gv.group == gvk.group && gv.version == gvk.version
  | none => r.kind == gk.kind && gv.group == gk.group

/-- Partial-match test: case-insensitive substring match of the parsed
Kind in the resource Kind, or of the raw input in the plural name. -/
def entryPartial (resourceName : Str) (gk : GroupKind) (r : APIResource) : Bool :=
  strContains (lowerStr r.kind) (lowerStr gk.kind)
    || strContains (lowerStr r.name) (lowerStr resourceName)

/-- Exact and partial matches contributed by one discovery list: a list
whose group-version fails to parse is skipped, and denylisted entries are
dropped before they are counted. -/
def matchesInList (resourceName : Str) (gvkOpt : Option GroupVersionKind)
    (gk : GroupKind) (l : APIResourceList) : List RMatch × List RMatch :=
  match parseGroupVersion l.groupVersion with
  | none => ([], [])
  | some gv =>
    ((l.apiResources.filter (fun r =>
        !isRestrictedResource (matchOfEntry gv r).gvr && entryExact gvkOpt gk gv r)).map
          (matchOfEntry gv),
     (l.apiResources.filter (fun r =>
        !isRestrictedResource (matchOfEntry gv r).gvr && entryPartial resourceName gk r)).map
          (matchOfEntry gv))

def matchesOfAux (resourceName : Str) (gvkOpt : Option GroupVersionKind)
    (gk : GroupKind) : List APIResourceList → List RMatch × List RMatch
  | [] => ([], [])
  | l :: rest =>
    let p := matchesInList resourceName gvkOpt gk l
    let q := matchesOfAux resourceName gvkOpt gk rest
    (p.1 ++ q.1, p.2 ++ q.2)

/-- The exact and partial match lists collected by the resolver, in
discovery-list order, already filtered through the denylist. -/
def matchesOf (resourceName : Str) (lists : List APIResourceList) :
    List RMatch × List RMatch :=
  let pk := parseKindArg resourceName
  matchesOfAux resourceName pk.1 pk.2 lists

def notFoundMsg (resourceName : Str) : Str :=
  "resource \"".data ++ resourceName ++ "\" not found".data

def optionFmt (m : RMatch) : Str :=
  m.gvr.resource ++ ".".data ++ m.gvr.version ++ ".".data ++ m.gvr.group

def suggestionsMsg (resourceName : Str) (ms : List RMatch) : Str :=
  notFoundMsg resourceName ++ ", did you mean one of these: ".data
    ++ joinStr ", ".data (ms.map optionFmt)

/-- Value a user elicitation may return under a content key. -/
inductive ContentVal where
  | strVal (s : Str)
  | boolVal (b : Bool)
  | otherVal

deriving DecidableEq

/-- Outcome of the resolver's disambiguation elicit (the `choice` field). -/
structure ElicitChoiceOutcome where
  action : Str
  choice : Option ContentVal

deriving DecidableEq

def defaultRMatch : RMatch := ⟨⟨[], [], []⟩, false⟩

/-- The resolver's decision chain on the already-filtered match lists.
The source returns `exactMatches[0]` both when exactly one exact match
remains and when more than one does, so the two branches are a single
head pattern here. -/
def resolveMatches (resourceName : Str) (exacts partials : List RMatch)
    (session : Option (Except Str ElicitChoiceOutcome)) :
    Except Str (GroupVersionResource × Bool) :=
  match exacts with
  | m :: _ => .ok (m.gvr, m.namespaced)
  | [] =>
    match partials with
    | [] => .error (notFoundMsg resourceName)
    | [m] => .ok (m.gvr, m.namespaced)
    | _ =>
      match session with
      | none => .error (suggestionsMsg resourceName partials)
      | some (.error e) => .error ("failed to elicit user choice: ".data ++ e)
      | some (.ok er) =>
        if er.action != "accept".data then
          .error "user cancelled resource selection".data
        else
          match er.choice with
          | some (.strVal cs) =>
            (match atoiInt cs with
             | none => .error ("invalid choice: ".data ++ cs)
             | some n =>
               if n < 1 || (partials.length : Int) < n then
                 .error ("invalid choice: ".data ++ cs)
               else
                 let m := partials.getD (n.toNat - 1) defaultRMatch
                 .ok (m.gvr, m.namespaced))
          | _ => .error "invalid choice format".data

/-- Modelled from the spec: `FindResource`, whose defining file is absent
from the sources.  The session is abstracted to the outcome its single
disambiguation elicit would produce (`none` models a nil session); the
numbered option text shown to the user carries no information relevant to
the result and is not modelled. -/
def findResource (resourceName : Str) (lists : List APIResourceList)
    (session : Option (Except Str ElicitChoiceOutcome)) :
    Except Str (GroupVersionResource × Bool) :=
  resolveMatches resourceName (matchesOf resourceName lists).1
    (matchesOf resourceName lists).2 session

/-- A discovery catalogue with every denylisted entry removed, as if
discovery had never returned those resources. -/
def scrubList (l : APIResourceList) : APIResourceList :=
  match parseGroupVersion l.groupVersion with
  | none => l
  | some gv =>
    ⟨l.groupVersion,
      l.apiResources.filter (fun r => !isRestrictedResource (matchOfEntry gv r).gvr)⟩

def scrubCatalogue (lists : List APIResourceList) : List APIResourceList :=
  lists.map scrubList

/-- Every entry of a file with a `(groupVersion, APIResource)` view of the
catalogue, in discovery-list order; lists whose group-version fails to
parse contribute nothing, exactly as in the resolver's collection loop. -/
def flatEntries : List APIResourceList → List (GroupVersion × APIResource)
  | [] => []
  | l :: rest =>
    (match parseGroupVersion l.groupVersion with
     | none => []
     | some gv => l.apiResources.map (fun r => (gv, r))) ++ flatEntries rest

/-! ## Token verifier

Embedded from `verifyToken` in `pkg/mcp/mcp.go`.  JWT parsing is done by
the external `golang-jwt` library in an unverified mode; it is abstracted
to its outcome: `none` models a parse failure, and a `ParsedToken` carries
the library's validity flag together with the decoded claims.  Instants
are integers; `Before`/`After` are the strict orders. -/

structure JWTClaims where
  scopes : List Str
  expiresAt : Option Int
  notBefore : Option Int
  audience : Option (List Str)

deriving DecidableEq

structure ParsedToken where
  valid : Bool
  claims : JWTClaims

deriving DecidableEq

structure TokenInfo where
  scopes : List Str
  expiration : Int
  apiServerUrls : List Str
  bearerToken : Str

deriving DecidableEq

/-- The audience loop: notes whether any entry equals the configured
audience and collects the other entries in order. -/
def splitAudience (serverAud : Str) : List Str → Bool × List Str
  | [] => (false, [])
  | a :: rest =>
    let p := splitAudience serverAud rest
    if a == serverAud then (true, p.2) else (p.1, a :: p.2)

def verifyToken (serverAud : Str) (now : Int) (tokenString : Str)
    (parsed : Option ParsedToken) : Except Str TokenInfo :=
  match parsed with
  | none => .error "invalid token: failed to parse token".data
  | some t =>
    if !t.valid then .error "invalid token: invalid token".data
    else
      match t.claims.expiresAt with
      | none => .error "invalid token: invalid token expired".data
      | some exp =>
        if exp < now then .error "invalid token: token has expired".data
        else if (match t.claims.notBefore with
                 | some nbf => now < nbf
                 | none => false : Bool) then
          .error "invalid token: token not yet valid".data
        else
          match t.claims.audience with
          | none => .error "invalid token: invalid token audience".data
          | some aud =>
            let p := splitAudience serverAud aud
            if !p.1 then
              .error ("invalid token: token audience does not match ".data ++ serverAud)
            else if p.2 == [] then
              .error ("invalid token: apiserver url not found in audience ".data ++ serverAud)
            else
              .ok ⟨t.claims.scopes, exp, p.2, tokenString⟩

/-! ## resource_get: namespace handling

Embedded from the `resource_get` handler: after resolution, a namespaced
resource with an empty requested namespace triggers a single elicit for a
string field `namespace` defaulting to `"default"`; the elicit outcome is
abstracted to the `{action, content}` pair the session returns, and the
Kubernetes GET to an oracle from the namespace used to its result. -/

structure KObj where
  kind : Str
  name : Str
  ns : Str
  body : Str

deriving DecidableEq

instance : Inhabited KObj := ⟨⟨[], [], [], []⟩⟩

structure ElicitNsOutcome where
  action : Str
  content : Option ContentVal

deriving DecidableEq

inductive GetAction where
  | elicitNamespace (message : Str) (fieldName : Str) (fieldType : Str)
      (defaultVal : Str) (required : List Str)
  | getCall (ns : Option Str) (name : Str)

deriving DecidableEq

def nsElicitMessage (resource : Str) : Str :=
  "Namespace is required for namespaced resource ".data ++ resource
    ++ ". Please specify a namespace:".data

def doGet (name : Str) (ns : Str) (getRes : Option Str → Except Str KObj) :
    List GetAction × Except Str KObj :=
  if ns != [] then
    ([.getCall (some ns) name],
      match getRes (some ns) with
      | .error e => .error ("failed to get resource: ".data ++ e)
      | .ok o => .ok o)
  else
    ([.getCall none name],
      match getRes none with
      | .error e => .error ("failed to get resource: ".data ++ e)
      | .ok o => .ok o)

def resourceGetCluster (resource name inputNs : Str) (namespaced : Bool)
    (elicitRes : Except Str ElicitNsOutcome) (getRes : Option Str → Except Str KObj) :
    List GetAction × Except Str KObj :=
  if namespaced && inputNs == [] then
    let act := GetAction.elicitNamespace (nsElicitMessage resource) "namespace".data
      "string".data "default".data ["namespace".data]
    match elicitRes with
    | .error e => ([act], .error ("failed to elicit namespace: ".data ++ e))
    | .ok er =>
      if er.action != "accept".data then
        ([act], .error "user cancelled namespace selection".data)
      else
        let ns :=
          match er.content with
          | some (.strVal s) => if s == [] then "default".data else s
          | _ => "default".data
        let g := doGet name ns getRes
        (act :: g.1, g.2)
  else
    doGet name inputNs getRes

def isNsElicit : GetAction → Bool
  | .elicitNamespace _ _ _ _ _ => true
  | .getCall _ _ => false

/-- Model of Go `strings.Split(input, "---")`: split around every
leftmost, non-overlapping occurrence of the separator. -/
def splitDashes : Str → List Str
  | '-' :: '-' :: '-' :: rest => [] :: splitDashes rest
  | c :: rest =>
    let r := splitDashes rest
    (c :: r.headD []) :: r.tail
  | [] => [[]]

def noResourcesMsg : Str := "no valid resources found in the provided YAML".data

def decodeDocs {α : Type} (decode : Str → Except Str (Option α)) : List Str → Except Str (List α)
  | [] => .ok []
  | d :: rest =>
    let t := trimStr d
    if t == [] then decodeDocs decode rest
    else
      match decode t with
      | .error e => .error ("failed to decode YAML document: ".data ++ e)
      | .ok o =>
        match decodeDocs decode rest with
        | .error e => .error e
        | .ok objs =>
          .ok (match o with
               | some x => x :: objs
               | none => objs)

def parseResourceYAML {α : Type} (decode : Str → Except Str (Option α)) (input : Str) :
    Except Str (List α) :=
  match decodeDocs decode (splitDashes input) with
  | .error e => .error e
  | .ok [] => .error noResourcesMsg
  | .ok objs => .ok objs

/-- The naive reading of the stream: split on the separator, trim every
fragment, drop the empty ones. -/
def naiveFrags (input : Str) : List Str :=
  ((splitDashes input).map trimStr).filter (fun d => d != [])

def decodedOf {α : Type} (decode : Str → Except Str (Option α)) (d : Str) : Option α :=
  match decode d with
  | .ok o => o
  | .error _ => none

/-- A decoder for the witness: a fragment equal to `null` decodes to the
empty object, anything else to its length. -/
def sampleDecode (s : Str) : Except Str (Option Nat) :=
  if s == "null".data then .ok none else .ok (some s.length)

/-! ## resource_apply: per-cluster dry-run, confirmation and apply

Embedded from the body of the `resource_apply` handler.  The decoded
objects live in a mutable store (`Heap`) because the handler mutates them
in place (`SetNamespace`) and deep-copies them (`DeepCopy`) before the
dry-run; the clusters of the fan-out share the store, as they share the
decoded `unstructuredList` in the source.  Per cluster, the external
world is an oracle record `ClusterEnv`: client construction, resolution,
dry-run outcome, a function describing any in-place mutation the dry-run
call performs on the object it is handed, the confirmation elicit
outcome, and the real apply outcome. -/

structure Heap where
  cells : List KObj

deriving DecidableEq

def Heap.read (h : Heap) (i : Nat) : KObj := h.cells.getD i default

def Heap.write (h : Heap) (i : Nat) (o : KObj) : Heap := ⟨h.cells.set i o⟩

def Heap.alloc (h : Heap) (o : KObj) : Heap × Nat := (⟨h.cells ++ [o]⟩, h.cells.length)

structure ConfirmOutcome where
  action : Str
  confirm : Option ContentVal

deriving DecidableEq

structure ClusterEnv where
  clientErr : Option Str
  resolve : Str → Except Str (GroupVersionResource × Bool)
  dryRunErr : Nat → Option Str
  dryRunEffect : Nat → KObj → KObj
  elicitRes : Except Str ConfirmOutcome
  applyRes : Nat → KObj → Except Str KObj

inductive ApplyAction where
  | dryRunCall (cluster : Str) (idx : Nat) (obj : KObj)
  | confirmElicit (cluster : Str) (summaries : List Str)
  | realApplyCall (cluster : Str) (idx : Nat) (obj : KObj)

deriving DecidableEq

structure RInfo where
  cell : Nat
  idx : Nat
  gvr : GroupVersionResource
  namespaced : Bool

deriving DecidableEq

instance : Inhabited RInfo := ⟨⟨0, 0, ⟨[], [], []⟩, false⟩⟩

def findFailMsg (kind e : Str) : Str :=
  "failed to find resource type ".data ++ kind ++ ": ".data ++ e

def dryRunFailMsg (kind name e : Str) : Str :=
  "dry-run validation failed for ".data ++ kind ++ "/".data ++ name ++ ": ".data ++ e

def applyFailMsg (kind name e : Str) : Str :=
  "failed to apply ".data ++ kind ++ "/".data ++ name ++ ": ".data ++ e

/-- The namespace-defaulting step: on a namespaced resource whose stored
namespace is empty, mutate the stored object to namespace `"default"`.
Returns the updated store and the (possibly updated) object. -/
def nsDefault (h : Heap) (r : Nat) (namespaced : Bool) : Heap × KObj :=
  if namespaced && (h.read r).ns == [] then
    (h.write r { h.read r with ns := "default".data },
     { h.read r with ns := "default".data })
  else (h, h.read r)

/-- The `DeepCopy` + dry-run step: allocate a fresh copy of the object,
hand the copy to the dry-run apply — which may mutate it in place — and
record the value that was handed over.  The original cell is untouched. -/
def dryRunCopy (h1 : Heap) (obj1 : KObj) (eff : KObj → KObj) : Heap × KObj :=
  let al := h1.alloc obj1
  let argVal := al.1.read al.2
  (al.1.write al.2 (eff argVal), argVal)

/-- A preview or result line: `- <verb> <Kind>/<name>[ (namespace: <ns>)]`. -/
def applySummary (verb : Str) (o : KObj) (namespaced : Bool) : Str :=
  verb ++ o.kind ++ "/".data ++ o.name
    ++ (if namespaced then " (namespace: ".data ++ o.ns ++ ")".data else [])

/-- The validation pass over the decoded objects (given as store cells):
resolve each Kind, default an empty namespace on a namespaced resource by
mutating the stored object, deep-copy it and dry-run the copy.  Any
failure aborts with the corresponding error. -/
def validateLoop (env : ClusterEnv) (cluster : Str) (h : Heap) (idx : Nat) :
    List Nat → List ApplyAction × Heap × Except Str (List RInfo × List Str)
  | [] => ([], h, .ok ([], []))
  | r :: rs =>
    let obj := h.read r
    if obj.kind == [] then ([], h, .error "resource kind is required".data)
    else
      match env.resolve (lowerStr obj.kind) with
      | .error e => ([], h, .error (findFailMsg obj.kind e))
      | .ok gn =>
        let step := nsDefault h r gn.2
        let dc := dryRunCopy step.1 step.2 (env.dryRunEffect idx)
        match env.dryRunErr idx with
        | some e =>
          ([.dryRunCall cluster idx dc.2], dc.1,
            .error (dryRunFailMsg step.2.kind step.2.name e))
        | none =>
          let summ := applySummary "- apply ".data step.2 gn.2
          let vr := validateLoop env cluster dc.1 (idx + 1) rs
          (.dryRunCall cluster idx dc.2 :: vr.1, vr.2.1,
            match vr.2.2 with
            | .error e => .error e
            | .ok ps => .ok (⟨r, idx, gn.1, gn.2⟩ :: ps.1, summ :: ps.2))

/-- The real-apply pass, run only after confirmation: apply each stored
object with the same field manager; any failure aborts. -/
def realApplyLoop (env : ClusterEnv) (cluster : Str) (h : Heap) :
    List RInfo → List ApplyAction × Except Str (List KObj × List Str)
  | [] => ([], .ok ([], []))
  | i :: infos =>
    let argVal := h.read i.cell
    match env.applyRes i.idx argVal with
    | .error e =>
      ([.realApplyCall cluster i.idx argVal], .error (applyFailMsg argVal.kind argVal.name e))
    | .ok res =>
      let summ := applySummary "- applied ".data res i.namespaced
      let vr := realApplyLoop env cluster h infos
      (.realApplyCall cluster i.idx argVal :: vr.1,
        match vr.2 with
        | .error e => .error e
        | .ok ps => .ok (res :: ps.1, summ :: ps.2))

inductive ClusterOutcome where
  | failed (e : Str)
  | cancelled (text : Str)
  | applied (objs : List KObj) (summaries : List Str)

deriving DecidableEq

def applyCluster (env : ClusterEnv) (cluster : Str) (h : Heap) (cells : List Nat) :
    List ApplyAction × Heap × ClusterOutcome :=
  match env.clientErr with
  | some e => ([], h, .failed ("failed to load dynamic client: ".data ++ e))
  | none =>
    let v := validateLoop env cluster h 0 cells
    match v.2.2 with
    | .error e => (v.1, v.2.1, .failed e)
    | .ok ps =>
      let eAct := ApplyAction.confirmElicit cluster ps.2
      match env.elicitRes with
      | .error e =>
        (v.1 ++ [eAct], v.2.1, .failed ("failed to elicit user confirmation: ".data ++ e))
      | .ok er =>
        if er.action != "accept".data then
          (v.1 ++ [eAct], v.2.1, .cancelled "Operation cancelled by user".data)
        else if er.confirm == some (.boolVal true) then
          let ra := realApplyLoop env cluster v.2.1 ps.1
          (v.1 ++ eAct :: ra.1, v.2.1,
            match ra.2 with
            | .error e => .failed e
            | .ok rs => .applied rs.1 rs.2)
        else
          (v.1 ++ [eAct], v.2.1, .cancelled "Operation cancelled - user did not confirm".data)

inductive ApplyHandlerResult where
  | err (e : Str)
  | cancelled (text : Str)
  | success (text : Str) (objs : List KObj)

deriving DecidableEq

/-- The structured payload of a handler result: only a success carries the
applied objects; errors and cancellations return a nil payload. -/
def ApplyHandlerResult.payload : ApplyHandlerResult → Option (List KObj)
  | .success _ objs => some objs
  | _ => none

inductive LoopResult where
  | err (e : Str)
  | cancelled (text : Str)
  | done (objs : List KObj) (summaries : List Str)

/-- The sequential fan-out over the clusters derived from the token's
audience list, threading the shared object store and accumulating applied
objects and summaries. -/
def clustersLoop (envOf : Str → ClusterEnv) (h : Heap) (cells : List Nat) :
    List Str → List ApplyAction × LoopResult
  | [] => ([], .done [] [])
  | u :: rest =>
    let c := applyCluster (envOf u) u h cells
    match c.2.2 with
    | .failed e => (c.1, .err e)
    | .cancelled t => (c.1, .cancelled t)
    | .applied objs ss =>
      let r := clustersLoop envOf c.2.1 cells rest
      (c.1 ++ r.1,
        match r.2 with
        | .done objs2 ss2 => .done (objs ++ objs2) (ss ++ ss2)
        | .err e => .err e
        | .cancelled t => .cancelled t)

def successMsg (n : Nat) (ss : List Str) : Str :=
  "Successfully processed ".data ++ natToStr n ++ " resource(s):\n\n".data
    ++ joinStr "\n".data ss

def applyHandler (envOf : Str → ClusterEnv) (urls : List Str) (objs : List KObj) :
    List ApplyAction × ApplyHandlerResult :=
  let r := clustersLoop envOf ⟨objs⟩ (List.range objs.length) urls
  (r.1,
    match r.2 with
    | .err e => .err e
    | .cancelled t => .cancelled t
    | .done os ss => .success (successMsg os.length ss) os)

/-- The only mutation the pipeline ever applies to a decoded object:
defaulting an empty namespace.  `evolvedNs orig o` says `o` is `orig`
itself or `orig` with its empty namespace set to `"default"`. -/
def evolvedNs (orig o : KObj) : Prop :=
  o = orig ∨ (orig.ns = [] ∧ o = { orig with ns := "default".data })

/-- The user confirmed the apply: the elicit returned `accept` with a
boolean `confirm` equal to `true`. -/
def ElicitConfirmed (env : ClusterEnv) : Prop :=
  ∃ er, env.elicitRes = .ok er ∧ er.action = "accept".data
    ∧ er.confirm = some (.boolVal true)

/-- Every per-object validation step of a cluster succeeds on these
decoded objects: kinds are present and resolve, and every dry-run
passes. -/
def ValidateOk (env : ClusterEnv) (objs : List KObj) : Prop :=
  (∀ j, j < objs.length → (objs.getD j default).kind ≠ []
      ∧ ∃ g, env.resolve (lowerStr (objs.getD j default).kind) = .ok g)
  ∧ ∀ j, env.dryRunErr j = none

/-- A cluster on which the whole apply flow succeeds. -/
def EnvAllOk (env : ClusterEnv) (objs : List KObj) : Prop :=
  env.clientErr = none ∧ ValidateOk env objs ∧ ElicitConfirmed env
    ∧ ∀ k o, ∃ res, env.applyRes k o = .ok res

/-- A cluster oracle on which every step succeeds; the dry-run call
mutates the copy it is handed, so the witnesses exercise the copy
isolation. -/
def sampleOkEnv : ClusterEnv where
  clientErr := none
  resolve := fun _ => .ok (⟨[], "v1".data, "pods".data⟩, true)
  dryRunErr := fun _ => none
  dryRunEffect := fun _ o => { o with body := "mutated by the dry-run call".data }
  elicitRes := .ok ⟨"accept".data, some (.boolVal true)⟩
  applyRes := fun _ o => .ok o

/-- A cluster oracle whose confirmation elicit the user declines. -/
def sampleDeclineEnv : ClusterEnv where
  clientErr := none
  resolve := fun _ => .ok (⟨[], "v1".data, "pods".data⟩, true)
  dryRunErr := fun _ => none
  dryRunEffect := fun _ o => { o with body := "mutated by the dry-run call".data }
  elicitRes := .ok ⟨"decline".data, none⟩
  applyRes := fun _ o => .ok o

def sampleObj : KObj := ⟨"Pod".data, "p1".data, [], "spec".data⟩

def sampleEnvOf : Str → ClusterEnv := fun u =>
  if u == "https://c2".data then sampleDeclineEnv else sampleOkEnv

/-- A cluster oracle whose every dry-run fails with an admission error. -/
def sampleDryFailEnv : ClusterEnv where
  clientErr := none
  resolve := fun _ => .ok (⟨[], "v1".data, "pods".data⟩, true)
  dryRunErr := fun _ => some "admission denied".data
  dryRunEffect := fun _ o => o
  elicitRes := .ok ⟨"accept".data, some (.boolVal true)⟩
  applyRes := fun _ o => .ok o

def sampleFailEnvOf : Str → ClusterEnv := fun u =>
  if u == "https://c2".data then sampleDryFailEnv else sampleOkEnv

/-! ### Resolver lemmas -/

theorem mem_matchesInList_not_restricted {name : Str} {gvkOpt : Option GroupVersionKind}
    {gk : GroupKind} {l : APIResourceList} {m : RMatch}
    (h : m ∈ (matchesInList name gvkOpt gk l).1 ∨ m ∈ (matchesInList name gvkOpt gk l).2) :
    isRestrictedResource m.gvr = false := by
  unfold matchesInList at h
  rcases hp : parseGroupVersion l.groupVersion with _ | gv <;> simp only [hp] at h
  · simp at h
  · simp only [List.mem_map, List.mem_filter] at h
    rcases h with ⟨r, ⟨_, hr⟩, hm⟩ | ⟨r, ⟨_, hr⟩, hm⟩ <;>
      · rw [Bool.and_eq_true, Bool.not_eq_true'] at hr
        rw [← hm]
        exact hr.1

theorem mem_matchesOf_not_restricted {name : Str} {lists : List APIResourceList} {m : RMatch}
    (h : m ∈ (matchesOf name lists).1 ∨ m ∈ (matchesOf name lists).2) :
    isRestrictedResource m.gvr = false := by
  unfold matchesOf at h
  induction lists with
  | nil => simp [matchesOfAux] at h
  | cons l rest ih =>
    simp only [matchesOfAux, List.mem_append] at h
    rcases h with (h | h) | (h | h)
    · exact mem_matchesInList_not_restricted (Or.inl h)
    · exact ih (Or.inl h)
    · exact mem_matchesInList_not_restricted (Or.inr h)
    · exact ih (Or.inr h)

theorem resolveMatches_ok_mem {name : Str} {exacts partials : List RMatch}
    {session : Option (Except Str ElicitChoiceOutcome)}
    {gvr : GroupVersionResource} {b : Bool}
    (h : resolveMatches name exacts partials session = .ok (gvr, b)) :
    (⟨gvr, b⟩ : RMatch) ∈ exacts ∨ (⟨gvr, b⟩ : RMatch) ∈ partials := by
  unfold resolveMatches at h
  match exacts, partials, session with
  | m :: _, _, _ =>
    simp at h
    left
    rw [← h.1, ← h.2]
    exact List.mem_cons_self _ _
  | [], [], _ => simp at h
  | [], [m], _ =>
    simp at h
    right
    rw [← h.1, ← h.2]
    exact List.mem_cons_self _ _
  | [], m1 :: m2 :: ms, none => simp at h
  | [], m1 :: m2 :: ms, some (.error e) => simp at h
  | [], m1 :: m2 :: ms, some (.ok er) =>
    simp only at h
    split at h
    · exact absurd h (by simp)
    · split at h
      · rename_i cs _
        split at h
        · exact absurd h (by simp)
        · rename_i n _
          split at h
          · exact absurd h (by simp)
          · rename_i hbound
            simp only [Bool.or_eq_true, decide_eq_true_eq, not_or, not_lt] at hbound
            have hlen : n.toNat - 1 < (m1 :: m2 :: ms).length := by omega
            simp only [Except.ok.injEq, Prod.mk.injEq] at h
            right
            rw [← h.1, ← h.2]
            show ((m1 :: m2 :: ms).getD (n.toNat - 1) defaultRMatch) ∈ m1 :: m2 :: ms
            rw [List.getD_eq_getElem _ _ hlen]
            exact List.getElem_mem _
      · exact absurd h (by simp)

/-- C1, part one: any resolved resource came out of the filtered match
lists, hence is not denylisted. -/
theorem findResource_ok_not_restricted {name : Str} {lists : List APIResourceList}
    {session : Option (Except Str ElicitChoiceOutcome)}
    {gvr : GroupVersionResource} {b : Bool}
    (h : findResource name lists session = .ok (gvr, b)) :
    isRestrictedResource gvr = false := by
  unfold findResource at h
  exact mem_matchesOf_not_restricted (m := ⟨gvr, b⟩) (resolveMatches_ok_mem h)

theorem matchesInList_scrub (name : Str) (gvkOpt : Option GroupVersionKind)
    (gk : GroupKind) (l : APIResourceList) :
    matchesInList name gvkOpt gk (scrubList l) = matchesInList name gvkOpt gk l := by
  rcases hp : parseGroupVersion l.groupVersion with _ | gv
  · simp only [scrubList, hp]
  · have hs : scrubList l =
        ⟨l.groupVersion,
         l.apiResources.filter (fun r => !isRestrictedResource (matchOfEntry gv r).gvr)⟩ := by
      simp only [scrubList, hp]
    rw [hs]
    unfold matchesInList
    simp only [hp]
    rw [List.filter_filter, List.filter_filter]
    congr 1 <;>
    · apply congrArg
      apply List.filter_congr
      intro r _
      cases isRestrictedResource (matchOfEntry gv r).gvr <;> simp

theorem matchesOf_scrub (name : Str) (lists : List APIResourceList) :
    matchesOf name (scrubCatalogue lists) = matchesOf name lists := by
  unfold matchesOf
  induction lists with
  | nil => rfl
  | cons l rest ih =>
    simp only [scrubCatalogue, List.map_cons, matchesOfAux]
    rw [matchesInList_scrub]
    have := ih
    simp only [scrubCatalogue] at this
    rw [this]

/-! ### Resolver claims -/

/-- C1: the resolver never returns a denylisted resource — secrets or
serviceaccounts in the core group, or anything in a group ending with
`rbac.authorization.k8s.io` — no matter how the input matches; moreover a
catalogue behaves exactly as if discovery had never returned the
denylisted entries. -/
theorem C1_resolver_never_returns_denylisted (name : Str) (lists : List APIResourceList)
    (session : Option (Except Str ElicitChoiceOutcome)) :
    (∀ gvr b, findResource name lists session = .ok (gvr, b) →
        isRestrictedResource gvr = false)
  ∧ findResource name lists session = findResource name (scrubCatalogue lists) session := by
  constructor
  · intro gvr b h
    exact findResource_ok_not_restricted h
  · unfold findResource
    rw [matchesOf_scrub]

theorem C1_witness :
    (isRestrictedResource ⟨[], "v1".data, "pods".data⟩ = false
      ∧ findResource "Pod".data
          [⟨"v1".data, [⟨"secrets".data, "Secret".data, true⟩, ⟨"pods".data, "Pod".data, true⟩]⟩]
          none
        = findResource "Pod".data
            (scrubCatalogue
              [⟨"v1".data, [⟨"secrets".data, "Secret".data, true⟩, ⟨"pods".data, "Pod".data, true⟩]⟩])
            none)
  ∧ findResource "Secret".data
      [⟨"v1".data, [⟨"secrets".data, "Secret".data, true⟩, ⟨"pods".data, "Pod".data, true⟩]⟩] none
      = .error (notFoundMsg "Secret".data) :=
  ⟨⟨(C1_resolver_never_returns_denylisted "Pod".data
        [⟨"v1".data, [⟨"secrets".data, "Secret".data, true⟩, ⟨"pods".data, "Pod".data, true⟩]⟩]
        none).1 ⟨[], "v1".data, "pods".data⟩ true (by decide),
    (C1_resolver_never_returns_denylisted "Pod".data
        [⟨"v1".data, [⟨"secrets".data, "Secret".data, true⟩, ⟨"pods".data, "Pod".data, true⟩]⟩]
        none).2⟩,
   by decide⟩

/-- C4: the resolver's decision chain on the denylist-filtered match
lists: a nonempty exact list returns its first element (this covers both
the exactly-one case and the more-than-one case, where the source returns
`exactMatches[0]` in discovery-list order); with no exact and no partial
matches it fails with the not-found message; with exactly one partial
match that match is returned. -/
theorem C4_resolution_rule_order (name : Str) (lists : List APIResourceList)
    (session : Option (Except Str ElicitChoiceOutcome)) :
    (∀ m rest, (matchesOf name lists).1 = m :: rest →
        findResource name lists session = .ok (m.gvr, m.namespaced))
  ∧ ((matchesOf name lists).1 = [] → (matchesOf name lists).2 = [] →
        findResource name lists session = .error (notFoundMsg name))
  ∧ (∀ m, (matchesOf name lists).1 = [] → (matchesOf name lists).2 = [m] →
        findResource name lists session = .ok (m.gvr, m.namespaced)) := by
  refine ⟨?_, ?_, ?_⟩
  · intro m rest hex
    unfold findResource
    rw [hex]
    rfl
  · intro hex hpa
    unfold findResource
    rw [hex, hpa]
    rfl
  · intro m hex hpa
    unfold findResource
    rw [hex, hpa]
    rfl

theorem C4_witness :
    findResource "Pod".data
        [⟨"v1".data, [⟨"pods".data, "Pod".data, true⟩]⟩,
         ⟨"v2".data, [⟨"pods".data, "Pod".data, true⟩]⟩] none
      = .ok (⟨[], "v1".data, "pods".data⟩, true)
  ∧ findResource "nonexistent".data [⟨"v1".data, [⟨"pods".data, "Pod".data, true⟩]⟩] none
      = .error (notFoundMsg "nonexistent".data)
  ∧ findResource "node".data
        [⟨"v1".data, [⟨"nodes".data, "Node".data, false⟩, ⟨"pods".data, "Pod".data, true⟩]⟩] none
      = .ok (⟨[], "v1".data, "nodes".data⟩, false) :=
  ⟨(C4_resolution_rule_order "Pod".data
      [⟨"v1".data, [⟨"pods".data, "Pod".data, true⟩]⟩,
       ⟨"v2".data, [⟨"pods".data, "Pod".data, true⟩]⟩] none).1
      ⟨⟨[], "v1".data, "pods".data⟩, true⟩ [⟨⟨[], "v2".data, "pods".data⟩, true⟩] (by decide),
   (C4_resolution_rule_order "nonexistent".data
      [⟨"v1".data, [⟨"pods".data, "Pod".data, true⟩]⟩] none).2.1 (by decide) (by decide),
   (C4_resolution_rule_order "node".data
      [⟨"v1".data, [⟨"nodes".data, "Node".data, false⟩, ⟨"pods".data, "Pod".data, true⟩]⟩]
      none).2.2 ⟨⟨[], "v1".data, "nodes".data⟩, false⟩ (by decide) (by decide)⟩

theorem countChar_eq_zero {ch : Char} {s : Str} (h : ch ∉ s) : countChar ch s = 0 := by
  unfold countChar
  rw [List.countP_eq_zero]
  intro c hc
  simp only [beq_iff_eq, decide_eq_true_eq]
  intro he
  exact h (he ▸ hc)

theorem splitFirstChar_append {ch : Char} (K rest : Str) (h : ch ∉ K) :
    splitFirstChar ch (K ++ ch :: rest) = (K, rest) := by
  induction K with
  | nil => simp [splitFirstChar]
  | cons c K ih =>
    have hc : (c == ch) = false := by
      simp only [beq_eq_false_iff_ne, ne_eq]
      intro he
      exact h (he ▸ List.mem_cons_self c K)
    have hK : ch ∉ K := fun hm => h (List.mem_cons_of_mem _ hm)
    rw [List.cons_append]
    simp only [splitFirstChar, hc, Bool.false_eq_true, if_false]
    rw [ih hK]

theorem parseKindArg_of_kvg {K V G : Str} (hK : ('.' : Char) ∉ K) (hV : ('.' : Char) ∉ V) :
    (parseKindArg (K ++ '.' :: (V ++ '.' :: G))).1
      = some ⟨G, V, K⟩ := by
  have hcount : 2 ≤ countChar '.' (K ++ '.' :: (V ++ '.' :: G)) := by
    unfold countChar
    rw [List.countP_append, List.countP_cons, List.countP_append, List.countP_cons]
    simp only [beq_self_eq_true, if_true]
    omega
  have h1 : splitFirstChar '.' (K ++ '.' :: (V ++ '.' :: G)) = (K, V ++ '.' :: G) :=
    splitFirstChar_append K _ hK
  have h2 : splitFirstChar '.' (V ++ '.' :: G) = (V, G) := splitFirstChar_append V G hV
  unfold parseKindArg
  simp only [h1, h2, if_pos (by simpa using hcount)]

/-- The exact-match list is the denylist-filtered, exact-predicate-filtered
flat view of the catalogue. -/
theorem matchesOf_fst_eq_filter (name : Str) (lists : List APIResourceList) :
    (matchesOf name lists).1
      = ((flatEntries lists).filter
          (fun e => !isRestrictedResource (matchOfEntry e.1 e.2).gvr
              && entryExact (parseKindArg name).1 (parseKindArg name).2 e.1 e.2)).map
          (fun e => matchOfEntry e.1 e.2) := by
  unfold matchesOf
  induction lists with
  | nil => rfl
  | cons l rest ih =>
    simp only [matchesOfAux, flatEntries, List.filter_append, List.map_append]
    rw [ih]
    apply congrArg (· ++ _)
    unfold matchesInList
    rcases hp : parseGroupVersion l.groupVersion with _ | gv <;> simp only [hp]
    · rfl
    · rw [List.filter_map, List.map_map]
      rfl

/-- C5, corrected: an input of the form `Kind.version.group` resolves to
the plural of the catalogue's unique non-denylisted entry carrying exactly
that Kind, group and version — the parser produced a version, so exact
matching compares it along with Kind and group. -/
theorem C5_kind_version_group_roundtrip (K V G : Str) (lists : List APIResourceList)
    (session : Option (Except Str ElicitChoiceOutcome)) (e0 : GroupVersion × APIResource)
    (hK : ('.' : Char) ∉ K) (hV : ('.' : Char) ∉ V)
    (hcat : (flatEntries lists).filter
        (fun e => !isRestrictedResource ⟨e.1.group, e.1.version, e.2.name⟩
            && (e.2.kind == K && e.1.group == G && e.1.version == V)) = [e0]) :
    findResource (K ++ '.' :: (V ++ '.' :: G)) lists session
      = .ok (⟨G, V, e0.2.name⟩, e0.2.namespaced) := by
  have hpk := parseKindArg_of_kvg (G := G) hK hV
  have hex : (matchesOf (K ++ '.' :: (V ++ '.' :: G)) lists).1
      = [matchOfEntry e0.1 e0.2] := by
    rw [matchesOf_fst_eq_filter]
    have hpred : (fun (e : GroupVersion × APIResource) =>
          !isRestrictedResource (matchOfEntry e.1 e.2).gvr
            && entryExact (parseKindArg (K ++ '.' :: (V ++ '.' :: G))).1
                (parseKindArg (K ++ '.' :: (V ++ '.' :: G))).2 e.1 e.2)
        = (fun e => !isRestrictedResource ⟨e.1.group, e.1.version, e.2.name⟩
            && (e.2.kind == K && e.1.group == G && e.1.version == V)) := by
      funext e
      rw [hpk]
      rfl
    rw [hpred, hcat]
    rfl
  have hmem : e0 ∈ (flatEntries lists).filter
      (fun e => !isRestrictedResource ⟨e.1.group, e.1.version, e.2.name⟩
          && (e.2.kind == K && e.1.group == G && e.1.version == V)) := by
    rw [hcat]; exact List.mem_cons_self _ _
  have hpred0 := (List.mem_filter.mp hmem).2
  simp only [Bool.and_eq_true, beq_iff_eq] at hpred0
  obtain ⟨-, ⟨-, hg⟩, hv⟩ := hpred0
  unfold findResource
  rw [hex]
  simp only [resolveMatches, matchOfEntry, hg, hv]

theorem C5_counterexample :
    findResource "Role.v1.rbac.authorization.k8s.io".data
        [⟨"rbac.authorization.k8s.io/v1".data, [⟨"roles".data, "Role".data, true⟩]⟩] none
      = .error (notFoundMsg "Role.v1.rbac.authorization.k8s.io".data)
  ∧ findResource "Role.v1.rbac.authorization.k8s.io".data
        [⟨"rbac.authorization.k8s.io/v1".data, [⟨"roles".data, "Role".data, true⟩]⟩] none
      ≠ .ok (⟨"rbac.authorization.k8s.io".data, "v1".data, "roles".data⟩, true) := by
  constructor <;> decide

theorem C5_witness :
    findResource ("Deployment".data ++ '.' :: ("v1".data ++ '.' :: "apps".data))
        [⟨"apps/v1".data,
          [⟨"deployments".data, "Deployment".data, true⟩,
           ⟨"replicasets".data, "ReplicaSet".data, true⟩]⟩] none
      = .ok (⟨"apps".data, "v1".data, "deployments".data⟩, true) :=
  C5_kind_version_group_roundtrip "Deployment".data "v1".data "apps".data
    [⟨"apps/v1".data,
      [⟨"deployments".data, "Deployment".data, true⟩,
       ⟨"replicasets".data, "ReplicaSet".data, true⟩]⟩] none
    (⟨"apps".data, "v1".data⟩, ⟨"deployments".data, "Deployment".data, true⟩)
    (by decide) (by decide) (by decide)

/-- C8: with no exact match, several partial matches and no session, the
resolver fails with a message enumerating every partial candidate as
`plural.version.group`, joined by a comma and a space. -/
theorem C8_ambiguous_partial_message (name : Str) (lists : List APIResourceList)
    (m1 m2 : RMatch) (ms : List RMatch)
    (hex : (matchesOf name lists).1 = [])
    (hpa : (matchesOf name lists).2 = m1 :: m2 :: ms) :
    findResource name lists none =
      .error (notFoundMsg name ++ ", did you mean one of these: ".data
        ++ joinStr ", ".data ((m1 :: m2 :: ms).map optionFmt)) := by
  unfold findResource
  rw [hex, hpa]
  rfl

theorem C8_witness :
    findResource "po".data
        [⟨"v1".data,
          [⟨"pods".data, "Pod".data, true⟩, ⟨"podtemplates".data, "PodTemplate".data, true⟩]⟩]
        none
      = .error
          "resource \"po\" not found, did you mean one of these: pods.v1., podtemplates.v1.".data := by
  rw [C8_ambiguous_partial_message "po".data
        [⟨"v1".data,
          [⟨"pods".data, "Pod".data, true⟩, ⟨"podtemplates".data, "PodTemplate".data, true⟩]⟩]
        ⟨⟨[], "v1".data, "pods".data⟩, true⟩ ⟨⟨[], "v1".data, "podtemplates".data⟩, true⟩ []
        (by decide) (by decide)]
  decide

theorem splitAudience_fst (serverAud : Str) (l : List Str) :
    (splitAudience serverAud l).1 = l.contains serverAud := by
  induction l with
  | nil => rfl
  | cons a rest ih =>
    by_cases hc : a = serverAud
    · subst hc
      simp [splitAudience]
    · have h : (a == serverAud) = false := by simpa using hc
      have h2 : (serverAud == a) = false := by
        simp only [beq_eq_false_iff_ne, ne_eq]
        exact fun he => hc he.symm
      simp [splitAudience, h, h2, ih]
      intro he
      exact absurd he.symm hc

theorem splitAudience_snd (serverAud : Str) (l : List Str) :
    (splitAudience serverAud l).2 = l.filter (fun x => x != serverAud) := by
  induction l with
  | nil => rfl
  | cons a rest ih =>
    by_cases hc : a = serverAud
    · subst hc
      simp [splitAudience, ih]
    · have h : (a == serverAud) = false := by simpa using hc
      simp [splitAudience, h, ih]
      simp [List.filter_cons, bne, h]

/-- C2, corrected: a token is accepted exactly when, the parse and time
checks passing, at least one audience entry equals the configured MCP
audience and at least one does not; on acceptance `api_server_urls` is the
audience list minus every occurrence of the MCP audience, in the original
order.  (The source sets a flag when it sees the MCP audience rather than
counting, so duplicate MCP-audience entries are accepted.) -/
theorem C2_audience_derivation (serverAud : Str) (now : Int) (tokenString : Str)
    (valid : Bool) (scopes : List Str) (expOpt nbfOpt : Option Int) (aud : List Str) :
    (∀ info, verifyToken serverAud now tokenString
          (some ⟨valid, ⟨scopes, expOpt, nbfOpt, some aud⟩⟩) = .ok info →
        aud.contains serverAud = true
          ∧ info.apiServerUrls = aud.filter (fun x => x != serverAud)
          ∧ info.apiServerUrls ≠ []
          ∧ info.bearerToken = tokenString)
  ∧ ((aud.contains serverAud = false ∨ aud.filter (fun x => x != serverAud) = []) →
        ∀ info, verifyToken serverAud now tokenString
          (some ⟨valid, ⟨scopes, expOpt, nbfOpt, some aud⟩⟩) ≠ .ok info) := by
  constructor
  · intro info h
    simp only [verifyToken] at h
    cases valid with
    | false => simp at h
    | true =>
      cases expOpt with
      | none => simp at h
      | some exp =>
        simp only [Bool.not_true, Bool.false_eq_true, if_false] at h
        split at h
        · simp at h
        · split at h
          · simp at h
          · split at h
            · simp at h
            · split at h
              · simp at h
              · rename_i hfound hne
                simp only [Except.ok.injEq] at h
                rw [Bool.not_eq_true', Bool.not_eq_false] at hfound
                rw [splitAudience_fst] at hfound
                refine ⟨hfound, ?_, ?_, ?_⟩
                · rw [← h]
                  exact splitAudience_snd serverAud aud
                · rw [← h]
                  show (splitAudience serverAud aud).2 ≠ []
                  intro hnil
                  rw [Bool.not_eq_true] at hne
                  rw [hnil] at hne
                  simp at hne
                · rw [← h]
  · intro hbad info h
    simp only [verifyToken] at h
    cases valid with
    | false => simp at h
    | true =>
      cases expOpt with
      | none => simp at h
      | some exp =>
        simp only [Bool.not_true, Bool.false_eq_true, if_false] at h
        split at h
        · simp at h
        · split at h
          · simp at h
          · split at h
            · simp at h
            · split at h
              · simp at h
              · rename_i hfound hne
                rcases hbad with hbad | hbad
                · rw [Bool.not_eq_true', Bool.not_eq_false] at hfound
                  rw [splitAudience_fst, hbad] at hfound
                  exact absurd hfound (by simp)
                · rw [Bool.not_eq_true] at hne
                  rw [splitAudience_snd, hbad] at hne
                  simp at hne

/-- The claim as frozen is false: the verifier accepts a token whose
audience list contains the configured MCP audience twice. -/
theorem C2_counterexample :
    verifyToken "k-mcp".data 0 "tok".data
        (some ⟨true, ⟨[], some 100, none,
          some ["k-mcp".data, "k-mcp".data, "https://c1".data]⟩⟩)
      = .ok ⟨[], 100, ["https://c1".data], "tok".data⟩
  ∧ (["k-mcp".data, "k-mcp".data, "https://c1".data].count "k-mcp".data ≠ 1) := by
  constructor <;> decide

theorem C2_witness :
    (verifyToken "k-mcp".data 0 "tok".data
        (some ⟨true, ⟨[], some 100, none, some ["https://c1".data, "k-mcp".data]⟩⟩)
      = .ok ⟨[], 100, ["https://c1".data], "tok".data⟩)
  ∧ ["https://c1".data, "k-mcp".data].contains "k-mcp".data = true
  ∧ ["https://c1".data] = ["https://c1".data, "k-mcp".data].filter (fun x => x != "k-mcp".data) :=
  have happ := (C2_audience_derivation "k-mcp".data 0 "tok".data
      true [] (some 100) none ["https://c1".data, "k-mcp".data]).1
      ⟨[], 100, ["https://c1".data], "tok".data⟩ (by decide)
  ⟨by decide, happ.1, happ.2.1⟩

/-- C7: on a namespaced resource with empty requested namespace the
handler issues exactly one elicit, asking for a string `namespace` field
with default `"default"`; a non-accept outcome fails as a user
cancellation; an accept whose content is missing, not a string, or the
empty string falls back to `"default"`; and the GET runs in the namespace
so obtained. -/
theorem C7_namespace_elicitation (resource name : Str)
    (elicitRes : Except Str ElicitNsOutcome) (getRes : Option Str → Except Str KObj) :
    ((resourceGetCluster resource name [] true elicitRes getRes).1.countP isNsElicit = 1
      ∧ (resourceGetCluster resource name [] true elicitRes getRes).1.head?
          = some (.elicitNamespace (nsElicitMessage resource) "namespace".data
              "string".data "default".data ["namespace".data]))
  ∧ (∀ er, elicitRes = .ok er → er.action ≠ "accept".data →
      (resourceGetCluster resource name [] true elicitRes getRes).2
        = .error "user cancelled namespace selection".data)
  ∧ (∀ er, elicitRes = .ok er → er.action = "accept".data →
      (er.content = none ∨ er.content = some .otherVal
        ∨ (∃ b, er.content = some (.boolVal b)) ∨ er.content = some (.strVal [])) →
      GetAction.getCall (some "default".data) name
        ∈ (resourceGetCluster resource name [] true elicitRes getRes).1)
  ∧ (∀ er s, elicitRes = .ok er → er.action = "accept".data →
      er.content = some (.strVal s) → s ≠ [] →
      GetAction.getCall (some s) name
        ∈ (resourceGetCluster resource name [] true elicitRes getRes).1) := by
  refine ⟨⟨?_, ?_⟩, ?_, ?_, ?_⟩
  · rcases elicitRes with e | er
    · simp [resourceGetCluster, isNsElicit]
    · by_cases ha : er.action = "accept".data
      · have hb : (er.action != "accept".data) = false := by simp [ha]
        rcases hc : er.content with _ | cv
        · simp [resourceGetCluster, hb, hc, doGet, isNsElicit]
        · rcases cv with s | b | _
          · by_cases hs : s = []
            · subst hs
              simp [resourceGetCluster, hb, hc, doGet, isNsElicit]
            · have hs2 : (s == ([] : Str)) = false := by simpa using hs
              simp [resourceGetCluster, hb, hc, hs2, doGet, isNsElicit]
              split <;> simp [isNsElicit]
          · simp [resourceGetCluster, hb, hc, doGet, isNsElicit]
          · simp [resourceGetCluster, hb, hc, doGet, isNsElicit]
      · have hb : (er.action != "accept".data) = true := by simpa using ha
        simp [resourceGetCluster, hb, isNsElicit]
  · rcases elicitRes with e | er
    · simp [resourceGetCluster]
    · by_cases ha : er.action = "accept".data
      · have hb : (er.action != "accept".data) = false := by simp [ha]
        rcases hc : er.content with _ | cv
        · simp [resourceGetCluster, hb, hc, doGet]
        · rcases cv with s | b | _ <;> simp [resourceGetCluster, hb, hc, doGet]
      · have hb : (er.action != "accept".data) = true := by simpa using ha
        simp [resourceGetCluster, hb]
  · intro er her hacc
    subst her
    have hb : (er.action != "accept".data) = true := by simpa using hacc
    simp [resourceGetCluster, hb]
  · intro er her hacc hcon
    subst her
    have hb : (er.action != "accept".data) = false := by simp [hacc]
    rcases hcon with hc | hc | ⟨b, hc⟩ | hc <;>
      simp [resourceGetCluster, hb, hc, doGet]
  · intro er s her hacc hcon hs
    subst her
    have hb : (er.action != "accept".data) = false := by simp [hacc]
    have hs2 : (s == ([] : Str)) = false := by simpa using hs
    simp [resourceGetCluster, hb, hcon, hs2, doGet, hs]

theorem C7_witness :
    ((resourceGetCluster "Pod".data "nginx".data [] true
        (.ok ⟨"accept".data, some (.strVal "kube-system".data)⟩)
        (fun _ => .ok default)).1.countP isNsElicit = 1)
  ∧ (resourceGetCluster "Pod".data "nginx".data [] true
        (.ok ⟨"decline".data, none⟩) (fun _ => .ok default)).2
      = .error "user cancelled namespace selection".data
  ∧ GetAction.getCall (some "default".data) "nginx".data
      ∈ (resourceGetCluster "Pod".data "nginx".data [] true
          (.ok ⟨"accept".data, some (.strVal [])⟩) (fun _ => .ok default)).1
  ∧ GetAction.getCall (some "kube-system".data) "nginx".data
      ∈ (resourceGetCluster "Pod".data "nginx".data [] true
          (.ok ⟨"accept".data, some (.strVal "kube-system".data)⟩)
          (fun _ => .ok default)).1 :=
  ⟨(C7_namespace_elicitation "Pod".data "nginx".data
      (.ok ⟨"accept".data, some (.strVal "kube-system".data)⟩) (fun _ => .ok default)).1.1,
   (C7_namespace_elicitation "Pod".data "nginx".data
      (.ok ⟨"decline".data, none⟩) (fun _ => .ok default)).2.1
      ⟨"decline".data, none⟩ rfl (by decide),
   (C7_namespace_elicitation "Pod".data "nginx".data
      (.ok ⟨"accept".data, some (.strVal [])⟩) (fun _ => .ok default)).2.2.1
      ⟨"accept".data, some (.strVal [])⟩ rfl rfl (Or.inr (Or.inr (Or.inr rfl))),
   (C7_namespace_elicitation "Pod".data "nginx".data
      (.ok ⟨"accept".data, some (.strVal "kube-system".data)⟩) (fun _ => .ok default)).2.2.2
      ⟨"accept".data, some (.strVal "kube-system".data)⟩ "kube-system".data rfl rfl rfl
      (by decide)⟩

/-! ## resource_apply: the YAML document pipeline

Embedded from the front of the `resource_apply` handler.  The
YAML-or-JSON decoder is an external library and is abstracted to a
function from a document to either a decode error or an optional object
(`none` models a document that decodes to an empty object, dropped like
Go's `obj.Object == nil` check). -/

theorem decodeDocs_all_ok {α : Type} (decode : Str → Except Str (Option α)) (docs : List Str)
    (hok : ∀ d ∈ (docs.map trimStr).filter (fun d => d != []), (decode d).isOk = true) :
    decodeDocs decode docs
      = .ok (((docs.map trimStr).filter (fun d => d != [])).filterMap (decodedOf decode)) := by
  induction docs with
  | nil => rfl
  | cons d rest ih =>
    rw [List.map_cons, List.filter_cons] at hok ⊢
    by_cases ht : trimStr d = []
    · have ht2 : (trimStr d != []) = false := by simpa using ht
      rw [ht2] at hok ⊢
      simp only [Bool.false_eq_true, if_false] at hok ⊢
      rw [decodeDocs]
      rw [if_pos (by simpa using ht)]
      exact ih hok
    · have ht2 : (trimStr d != []) = true := by simpa using ht
      rw [ht2] at hok ⊢
      simp only [if_true] at hok ⊢
      have hdok : (decode (trimStr d)).isOk = true := hok _ (List.mem_cons_self _ _)
      have hok' : ∀ x ∈ (rest.map trimStr).filter (fun d => d != []), (decode x).isOk = true :=
        fun x hx => hok x (List.mem_cons_of_mem _ hx)
      rcases hde : decode (trimStr d) with e | o
      · rw [hde] at hdok
        simp [Except.isOk, Except.toBool] at hdok
      · rw [decodeDocs]
        rw [if_neg (by simpa using ht)]
        rw [hde, ih hok', List.filterMap_cons]
        unfold decodedOf
        rw [hde]
        cases o <;> simp

/-- C6: when every surviving fragment decodes, the pipeline yields exactly
the decoded non-empty objects of the naive split/trim/drop-empty reading
of the stream, failing with the no-valid-resources error precisely when no
object remains; the object count never exceeds the fragment count, which
never exceeds the document count. -/
theorem C6_yaml_pipeline {α : Type} (decode : Str → Except Str (Option α)) (input : Str)
    (hok : ∀ d ∈ naiveFrags input, (decode d).isOk = true) :
    (parseResourceYAML decode input =
        if ((naiveFrags input).filterMap (decodedOf decode)).isEmpty then
          .error noResourcesMsg
        else .ok ((naiveFrags input).filterMap (decodedOf decode)))
  ∧ ((naiveFrags input).filterMap (decodedOf decode)).length ≤ (naiveFrags input).length
  ∧ (naiveFrags input).length ≤ (splitDashes input).length := by
  have hd := decodeDocs_all_ok decode (splitDashes input) hok
  refine ⟨?_, List.length_filterMap_le _ _, ?_⟩
  · unfold parseResourceYAML
    rw [hd]
    rcases hobjs : (naiveFrags input).filterMap (decodedOf decode) with _ | ⟨o, objs⟩
    · unfold naiveFrags at hobjs
      rw [hobjs]
      simp
    · unfold naiveFrags at hobjs
      rw [hobjs]
      simp
  · unfold naiveFrags
    calc (((splitDashes input).map trimStr).filter (fun d => d != [])).length
        ≤ ((splitDashes input).map trimStr).length := List.length_filter_le _ _
      _ = (splitDashes input).length := List.length_map _ _

theorem C6_witness :
    parseResourceYAML sampleDecode "a: 1\n---\nnull\n---\n\n---\nb: 22".data
      = .ok [4, 5]
  ∧ parseResourceYAML sampleDecode "---\n\n---".data = .error noResourcesMsg := by
  have h1 := (C6_yaml_pipeline sampleDecode "a: 1\n---\nnull\n---\n\n---\nb: 22".data
    (by decide)).1
  have h2 := (C6_yaml_pipeline sampleDecode "---\n\n---".data (by decide)).1
  constructor
  · rw [h1]
    decide
  · rw [h2]
    decide

/-! ### Store lemmas -/

theorem Heap.length_write (h : Heap) (i : Nat) (o : KObj) :
    (h.write i o).cells.length = h.cells.length := List.length_set _ _ _

theorem Heap.read_write_ne (h : Heap) {i j : Nat} (o : KObj) (hij : i ≠ j) :
    (h.write i o).read j = h.read j := by
  unfold Heap.read Heap.write
  rw [List.getD_eq_getElem?_getD, List.getD_eq_getElem?_getD, List.getElem?_set_ne hij]

theorem Heap.read_write_self (h : Heap) {i : Nat} (o : KObj) (hi : i < h.cells.length) :
    (h.write i o).read i = o := by
  unfold Heap.read Heap.write
  rw [List.getD_eq_getElem?_getD, List.getElem?_set_eq_of_lt o hi]
  rfl

theorem Heap.length_alloc (h : Heap) (o : KObj) :
    (h.alloc o).1.cells.length = h.cells.length + 1 := by
  unfold Heap.alloc
  simp

theorem Heap.read_alloc_lt (h : Heap) {i : Nat} (o : KObj) (hi : i < h.cells.length) :
    (h.alloc o).1.read i = h.read i := by
  unfold Heap.read Heap.alloc
  rw [List.getD_eq_getElem?_getD, List.getD_eq_getElem?_getD, List.getElem?_append_left hi]

theorem Heap.read_alloc_self (h : Heap) (o : KObj) :
    (h.alloc o).1.read (h.alloc o).2 = o := by
  unfold Heap.read Heap.alloc
  simp

theorem evolvedNs_refl (o : KObj) : evolvedNs o o := Or.inl rfl

theorem evolvedNs_kind {a b : KObj} (h : evolvedNs a b) :
    b.kind = a.kind ∧ b.name = a.name := by
  rcases h with h | ⟨_, h⟩ <;> rw [h] <;> exact ⟨rfl, rfl⟩

theorem evolvedNs_trans {a b c : KObj} (h1 : evolvedNs a b) (h2 : evolvedNs b c) :
    evolvedNs a c := by
  rcases h1 with h1 | ⟨hans, h1⟩
  · rw [h1] at h2
    exact h2
  · rcases h2 with h2 | ⟨hbns, h2⟩
    · rw [h2, h1]
      exact Or.inr ⟨hans, rfl⟩
    · rw [h1] at h2
      rw [h2]
      exact Or.inr ⟨hans, rfl⟩

/-! ### Validation-pass lemmas -/

theorem validateLoop_trace_dry (env : ClusterEnv) (c : Str) :
    ∀ (rs : List Nat) (h : Heap) (idx : Nat) (a : ApplyAction),
      a ∈ (validateLoop env c h idx rs).1 → ∃ k o, a = .dryRunCall c k o := by
  intro rs
  induction rs with
  | nil =>
    intro h idx a ha
    simp [validateLoop] at ha
  | cons r rs ih =>
    intro h idx a ha
    simp only [validateLoop] at ha
    split at ha
    · simp at ha
    · split at ha
      · simp at ha
      · split at ha
        · simp at ha
          exact ⟨_, _, ha⟩
        · rcases List.mem_cons.mp ha with ha | ha
          · exact ⟨_, _, ha⟩
          · exact ih _ _ _ ha

theorem validateLoop_ok_dry (env : ClusterEnv) (c : Str) :
    ∀ (rs : List Nat) (h : Heap) (idx : Nat) (ps : List RInfo × List Str),
      (validateLoop env c h idx rs).2.2 = .ok ps →
      ∀ j, j < rs.length → env.dryRunErr (idx + j) = none := by
  intro rs
  induction rs with
  | nil =>
    intro h idx ps _ j hj
    exact absurd hj (by simp)
  | cons r rs ih =>
    intro h idx ps hok j hj
    simp only [validateLoop] at hok
    split at hok
    · simp at hok
    · split at hok
      · simp at hok
      · split at hok
        · simp at hok
        · rename_i hdry
          cases j with
          | zero => simpa using hdry
          | succ j =>
            have hj2 : j < rs.length := by simpa using Nat.lt_of_succ_lt_succ hj
            have hstep : idx + (j + 1) = (idx + 1) + j := by omega
            rw [hstep]
            split at hok
            · simp at hok
            · rename_i ps2 hps2
              exact ih _ _ _ hps2 j hj2

theorem mutChain_len (h1 : Heap) (o eff : KObj) :
    ((h1.alloc o).1.write (h1.alloc o).2 eff).cells.length = h1.cells.length + 1 := by
  rw [Heap.length_write, Heap.length_alloc]

theorem mutChain_read (h1 : Heap) (o eff : KObj) {j : Nat} (hj : j < h1.cells.length) :
    ((h1.alloc o).1.write (h1.alloc o).2 eff).read j = h1.read j := by
  have hcopy : (h1.alloc o).2 = h1.cells.length := rfl
  rw [Heap.read_write_ne _ _ (by rw [hcopy]; omega), Heap.read_alloc_lt _ _ hj]

theorem nsDefault_len (h : Heap) (r : Nat) (b : Bool) :
    (nsDefault h r b).1.cells.length = h.cells.length := by
  unfold nsDefault
  split
  · exact Heap.length_write _ _ _
  · rfl

theorem nsDefault_read_ne (h : Heap) (r : Nat) (b : Bool) {j : Nat} (hne : j ≠ r) :
    (nsDefault h r b).1.read j = h.read j := by
  unfold nsDefault
  split
  · exact Heap.read_write_ne _ _ (fun he => hne he.symm)
  · rfl

theorem nsDefault_read_r (h : Heap) (r : Nat) (b : Bool) (hr : r < h.cells.length) :
    (nsDefault h r b).1.read r = (nsDefault h r b).2 := by
  unfold nsDefault
  split
  · exact Heap.read_write_self _ _ hr
  · rfl

theorem nsDefault_evolved (h : Heap) (r : Nat) (b : Bool) :
    evolvedNs (h.read r) (nsDefault h r b).2 := by
  unfold nsDefault
  split
  · rename_i hcond
    rw [Bool.and_eq_true] at hcond
    exact Or.inr ⟨beq_iff_eq.mp hcond.2, rfl⟩
  · exact evolvedNs_refl _

theorem nsDefault_kind (h : Heap) (r : Nat) (b : Bool) :
    (nsDefault h r b).2.kind = (h.read r).kind := by
  unfold nsDefault
  split <;> rfl

theorem nsDefault_name (h : Heap) (r : Nat) (b : Bool) :
    (nsDefault h r b).2.name = (h.read r).name := by
  unfold nsDefault
  split <;> rfl

theorem dryRunCopy_len (h1 : Heap) (o : KObj) (eff : KObj → KObj) :
    (dryRunCopy h1 o eff).1.cells.length = h1.cells.length + 1 := by
  unfold dryRunCopy
  exact mutChain_len _ _ _

theorem dryRunCopy_read (h1 : Heap) (o : KObj) (eff : KObj → KObj) {j : Nat}
    (hj : j < h1.cells.length) :
    (dryRunCopy h1 o eff).1.read j = h1.read j := by
  unfold dryRunCopy
  exact mutChain_read _ _ _ hj

theorem dryRunCopy_arg (h1 : Heap) (o : KObj) (eff : KObj → KObj) :
    (dryRunCopy h1 o eff).2 = o := by
  unfold dryRunCopy
  exact Heap.read_alloc_self _ _

/-- The heap discipline of a successful validation pass: the store only
grows, cells outside the processed list are untouched, and every
processed cell pairs a dry-run action carrying exactly the value the cell
holds at the end of the pass — the stored object, possibly
namespace-defaulted, never the dry-run's in-place mutation of its copy. -/
theorem validateLoop_ok_cells (env : ClusterEnv) (c : Str) :
    ∀ (rs : List Nat) (h : Heap) (idx : Nat) (acts : List ApplyAction) (h2 : Heap)
      (ps : List RInfo × List Str),
      validateLoop env c h idx rs = (acts, h2, .ok ps) →
      rs.Nodup → (∀ r ∈ rs, r < h.cells.length) →
      h.cells.length ≤ h2.cells.length
        ∧ (∀ j, j < h.cells.length → j ∉ rs → h2.read j = h.read j)
        ∧ (∀ i ∈ ps.1, i.cell ∈ rs
            ∧ ApplyAction.dryRunCall c i.idx (h2.read i.cell) ∈ acts
            ∧ evolvedNs (h.read i.cell) (h2.read i.cell)) := by
  intro rs
  induction rs with
  | nil =>
    intro h idx acts h2 ps hveq _ _
    simp only [validateLoop, Prod.mk.injEq, Except.ok.injEq] at hveq
    obtain ⟨hacts, hh2, hps⟩ := hveq
    subst hacts
    subst hh2
    refine ⟨Nat.le_refl _, fun j _ _ => rfl, fun i hi => ?_⟩
    rw [← hps] at hi
    simp at hi
  | cons r rs ih =>
    intro h idx acts h2 ps hveq hnd hb
    rw [List.nodup_cons] at hnd
    obtain ⟨hrni, hnd2⟩ := hnd
    have hbr : r < h.cells.length := hb r (List.mem_cons_self _ _)
    have hbtail : ∀ x ∈ rs, x < h.cells.length :=
      fun x hx => hb x (List.mem_cons_of_mem _ hx)
    simp only [validateLoop] at hveq
    split at hveq
    · simp at hveq
    · split at hveq
      · simp at hveq
      · rename_i gn heqres
        split at hveq
        · simp at hveq
        · rename_i hdry
          split at hveq
          · simp at hveq
          · rename_i ps2 hps2
            simp only [Prod.mk.injEq, Except.ok.injEq] at hveq
            obtain ⟨hacts, hh2, hps⟩ := hveq
            subst hacts
            subst hh2
            have hH3len :
                (dryRunCopy (nsDefault h r gn.2).1 (nsDefault h r gn.2).2
                    (env.dryRunEffect idx)).1.cells.length = h.cells.length + 1 := by
              rw [dryRunCopy_len, nsDefault_len]
            have hH3ne : ∀ j, j < h.cells.length → j ≠ r →
                (dryRunCopy (nsDefault h r gn.2).1 (nsDefault h r gn.2).2
                    (env.dryRunEffect idx)).1.read j = h.read j := by
              intro j hj hne
              rw [dryRunCopy_read _ _ _ (by rw [nsDefault_len]; exact hj)]
              exact nsDefault_read_ne _ _ _ hne
            have hH3r :
                (dryRunCopy (nsDefault h r gn.2).1 (nsDefault h r gn.2).2
                    (env.dryRunEffect idx)).1.read r = (nsDefault h r gn.2).2 := by
              rw [dryRunCopy_read _ _ _ (by rw [nsDefault_len]; exact hbr)]
              exact nsDefault_read_r _ _ _ hbr
            have hargval :
                (dryRunCopy (nsDefault h r gn.2).1 (nsDefault h r gn.2).2
                    (env.dryRunEffect idx)).2 = (nsDefault h r gn.2).2 :=
              dryRunCopy_arg _ _ _
            obtain ⟨hlen23, hunt, hinf⟩ :=
              ih _ (idx + 1) _ _ ps2
                (by rw [← hps2])
                hnd2
                (fun x hx => by rw [hH3len]; exact Nat.lt_succ_of_lt (hbtail x hx))
            rw [hH3len] at hlen23
            refine ⟨Nat.le_trans (Nat.le_succ _) hlen23, ?_, ?_⟩
            · intro j hj hjn
              rw [List.mem_cons, not_or] at hjn
              rw [hunt j (by rw [hH3len]; omega) hjn.2]
              exact hH3ne j hj hjn.1
            · intro i hi
              rw [← hps] at hi
              rcases List.mem_cons.mp hi with hi | hi
              · subst hi
                have hread2 := hunt r (by rw [hH3len]; omega) hrni
                rw [hH3r] at hread2
                refine ⟨List.mem_cons_self _ _, ?_, ?_⟩
                · simp only [hread2, hargval]
                  exact List.mem_cons_self _ _
                · show evolvedNs (h.read r) _
                  rw [hread2]
                  exact nsDefault_evolved _ _ _
              · obtain ⟨hcell, hdmem, hev⟩ := hinf i hi
                have hcne : i.cell ≠ r := fun he => hrni (he ▸ hcell)
                refine ⟨List.mem_cons_of_mem _ hcell, List.mem_cons_of_mem _ hdmem, ?_⟩
                rw [← hH3ne i.cell (hbtail i.cell hcell) hcne]
                exact hev

theorem validate_hyp_transfer (env : ClusterEnv) (h H3 : Heap) (r : Nat) (rs : List Nat)
    (idx : Nat)
    (hread : ∀ j, j < h.cells.length → j ≠ r → H3.read j = h.read j)
    (hrni : r ∉ rs) (hbtail : ∀ x ∈ rs, x < h.cells.length)
    (hhyp : ∀ pos, pos < (r :: rs).length →
        (h.read ((r :: rs).getD pos 0)).kind ≠ []
          ∧ (∃ g, env.resolve (lowerStr (h.read ((r :: rs).getD pos 0)).kind) = .ok g)
          ∧ env.dryRunErr (idx + pos) = none) :
    ∀ pos, pos < rs.length →
      (H3.read (rs.getD pos 0)).kind ≠ []
        ∧ (∃ g, env.resolve (lowerStr (H3.read (rs.getD pos 0)).kind) = .ok g)
        ∧ env.dryRunErr ((idx + 1) + pos) = none := by
  intro pos hpos
  have hmem : rs.getD pos 0 ∈ rs := by
    rw [List.getD_eq_getElem _ _ hpos]
    exact List.getElem_mem _
  have hne : rs.getD pos 0 ≠ r := fun he => hrni (he ▸ hmem)
  have hrd := hread _ (hbtail _ hmem) hne
  have hp := hhyp (pos + 1) (by simpa using Nat.succ_lt_succ hpos)
  simp only [List.getD_cons_succ] at hp
  rw [hrd]
  refine ⟨hp.1, hp.2.1, ?_⟩
  have heq : (idx + 1) + pos = idx + (pos + 1) := by omega
  rw [heq]
  exact hp.2.2

/-- When every object's kind is present and resolves and every dry-run
passes, the validation pass succeeds. -/
theorem validateLoop_all_ok (env : ClusterEnv) (c : Str) :
    ∀ (rs : List Nat) (h : Heap) (idx : Nat),
      (∀ pos, pos < rs.length →
          (h.read (rs.getD pos 0)).kind ≠ []
            ∧ (∃ g, env.resolve (lowerStr (h.read (rs.getD pos 0)).kind) = .ok g)
            ∧ env.dryRunErr (idx + pos) = none) →
      rs.Nodup → (∀ r ∈ rs, r < h.cells.length) →
      ∃ ps, (validateLoop env c h idx rs).2.2 = .ok ps := by
  intro rs
  induction rs with
  | nil =>
    intro h idx _ _ _
    exact ⟨([], []), rfl⟩
  | cons r rs ih =>
    intro h idx hhyp hnd hb
    rw [List.nodup_cons] at hnd
    obtain ⟨hrni, hnd2⟩ := hnd
    have hbr : r < h.cells.length := hb r (List.mem_cons_self _ _)
    have hbtail : ∀ x ∈ rs, x < h.cells.length :=
      fun x hx => hb x (List.mem_cons_of_mem _ hx)
    have h0 := hhyp 0 (by simp)
    simp only [List.getD_cons_zero] at h0
    obtain ⟨hkind, ⟨g, hres⟩, hdry0⟩ := h0
    rw [Nat.add_zero] at hdry0
    have hkind2 : ((h.read r).kind == []) = false := by simpa using hkind
    have hH3len :
        (dryRunCopy (nsDefault h r g.2).1 (nsDefault h r g.2).2
            (env.dryRunEffect idx)).1.cells.length = h.cells.length + 1 := by
      rw [dryRunCopy_len, nsDefault_len]
    have hH3ne : ∀ j, j < h.cells.length → j ≠ r →
        (dryRunCopy (nsDefault h r g.2).1 (nsDefault h r g.2).2
            (env.dryRunEffect idx)).1.read j = h.read j := by
      intro j hj hne
      rw [dryRunCopy_read _ _ _ (by rw [nsDefault_len]; exact hj)]
      exact nsDefault_read_ne _ _ _ hne
    obtain ⟨ps2, hps2⟩ :=
      ih (dryRunCopy (nsDefault h r g.2).1 (nsDefault h r g.2).2 (env.dryRunEffect idx)).1
        (idx + 1)
        (validate_hyp_transfer env h _ r rs idx hH3ne hrni hbtail hhyp)
        hnd2
        (fun x hx => by rw [hH3len]; exact Nat.lt_succ_of_lt (hbtail x hx))
    refine ⟨(⟨r, idx, g.1, g.2⟩ :: ps2.1,
        applySummary "- apply ".data (nsDefault h r g.2).2 g.2 :: ps2.2), ?_⟩
    show (validateLoop env c h idx (r :: rs)).2.2 = _
    simp only [validateLoop, hkind2, hres, hdry0, Bool.false_eq_true, if_false]
    rw [hps2]

theorem realApplyLoop_mem (env : ClusterEnv) (c : Str) :
    ∀ (infos : List RInfo) (h : Heap) (a : ApplyAction),
      a ∈ (realApplyLoop env c h infos).1 →
      ∃ i, i ∈ infos ∧ a = .realApplyCall c i.idx (h.read i.cell) := by
  intro infos
  induction infos with
  | nil =>
    intro h a ha
    simp [realApplyLoop] at ha
  | cons i infos ih =>
    intro h a ha
    simp only [realApplyLoop] at ha
    split at ha
    · simp at ha
      exact ⟨i, List.mem_cons_self _ _, ha⟩
    · rcases List.mem_cons.mp ha with ha | ha
      · exact ⟨i, List.mem_cons_self _ _, ha⟩
      · obtain ⟨i2, hi2, he⟩ := ih _ _ ha
        exact ⟨i2, List.mem_cons_of_mem _ hi2, he⟩

theorem realApplyLoop_all_ok (env : ClusterEnv) (c : Str)
    (hap : ∀ k o, ∃ res, env.applyRes k o = .ok res) :
    ∀ (infos : List RInfo) (h : Heap),
      (∃ ps, (realApplyLoop env c h infos).2 = .ok ps)
        ∧ ∀ i ∈ infos,
            ApplyAction.realApplyCall c i.idx (h.read i.cell)
              ∈ (realApplyLoop env c h infos).1 := by
  intro infos
  induction infos with
  | nil =>
    intro h
    exact ⟨⟨([], []), rfl⟩, fun i hi => absurd hi (by simp)⟩
  | cons i infos ih =>
    intro h
    obtain ⟨res, hres⟩ := hap i.idx (h.read i.cell)
    obtain ⟨⟨ps2, hps2⟩, hmem⟩ := ih h
    constructor
    · refine ⟨(res :: ps2.1, applySummary "- applied ".data res i.namespaced :: ps2.2), ?_⟩
      show (realApplyLoop env c h (i :: infos)).2 = _
      simp only [realApplyLoop, hres]
      rw [hps2]
    · intro i2 hi2
      show _ ∈ (realApplyLoop env c h (i :: infos)).1
      simp only [realApplyLoop, hres]
      rcases List.mem_cons.mp hi2 with hi2 | hi2
      · subst hi2
        exact List.mem_cons_self _ _
      · exact List.mem_cons_of_mem _ (hmem i2 hi2)

theorem validateLoop_ok_infos (env : ClusterEnv) (c : Str) :
    ∀ (rs : List Nat) (h : Heap) (idx : Nat) (ps : List RInfo × List Str),
      (validateLoop env c h idx rs).2.2 = .ok ps →
      ps.1.length = rs.length
        ∧ ∀ pos, pos < rs.length →
            (ps.1.getD pos default).idx = idx + pos
              ∧ (ps.1.getD pos default).cell = rs.getD pos 0 := by
  intro rs
  induction rs with
  | nil =>
    intro h idx ps hok
    simp only [validateLoop] at hok
    simp only [Except.ok.injEq] at hok
    rw [← hok]
    exact ⟨rfl, fun pos hpos => absurd hpos (by simp)⟩
  | cons r rs ih =>
    intro h idx ps hok
    simp only [validateLoop] at hok
    split at hok
    · simp at hok
    · split at hok
      · simp at hok
      · split at hok
        · simp at hok
        · split at hok
          · simp at hok
          · rename_i ps2 hps2
            simp only [Except.ok.injEq] at hok
            have hih := ih _ _ _ hps2
            rw [← hok]
            refine ⟨by simpa using hih.1, ?_⟩
            intro pos hpos
            cases pos with
            | zero => exact ⟨by simp, by simp⟩
            | succ pos =>
              have hpos2 : pos < rs.length := by simpa using Nat.lt_of_succ_lt_succ hpos
              have h1 := (hih.2 pos hpos2).1
              have h2 := (hih.2 pos hpos2).2
              constructor
              · simpa [Nat.add_assoc, Nat.add_comm 1 pos] using h1
              · simpa using h2

theorem applyCluster_exit_heap (env : ClusterEnv) (u : Str) (h : Heap) (cells : List Nat)
    (hc : env.clientErr = none) :
    (applyCluster env u h cells).2.1 = (validateLoop env u h 0 cells).2.1 := by
  unfold applyCluster
  rw [hc]
  split
  · rename_i heq
    simp at heq
  · rcases hv2 : (validateLoop env u h 0 cells).2.2 with e | ps <;>
      simp only [hv2] <;>
      repeat' first
        | rfl
        | split

/-- A real apply recorded in a cluster's trace certifies the whole
protocol: the action belongs to this very cluster, the user accepted and
confirmed, the validation pass succeeded, and the applied object is the
value the store holds for one of the validated entries. -/
theorem applyCluster_realApply_mem (env : ClusterEnv) (u : Str) (h : Heap) (cells : List Nat)
    {c : Str} {k : Nat} {o : KObj}
    (hmem : ApplyAction.realApplyCall c k o ∈ (applyCluster env u h cells).1) :
    c = u
      ∧ (∃ er, env.elicitRes = .ok er ∧ er.action = "accept".data
          ∧ er.confirm = some (.boolVal true))
      ∧ ∃ ps, (validateLoop env u h 0 cells).2.2 = .ok ps
          ∧ ∃ i, i ∈ ps.1 ∧ i.idx = k
              ∧ o = (validateLoop env u h 0 cells).2.1.read i.cell := by
  unfold applyCluster at hmem
  rcases hcc : env.clientErr with _ | e
  · rw [hcc] at hmem
    rcases hv2 : (validateLoop env u h 0 cells).2.2 with e2 | ps
    · simp only [hv2] at hmem
      obtain ⟨k2, o2, he⟩ := validateLoop_trace_dry env u _ _ _ _ hmem
      exact absurd he (by simp)
    · simp only [hv2] at hmem
      rcases her2 : env.elicitRes with e3 | er
      · simp only [her2] at hmem
        rcases List.mem_append.mp hmem with hm | hm
        · obtain ⟨k2, o2, he⟩ := validateLoop_trace_dry env u _ _ _ _ hm
          exact absurd he (by simp)
        · simp at hm
      · simp only [her2] at hmem
        by_cases hacc : (er.action != "accept".data) = true
        · simp only [hacc, if_true] at hmem
          rcases List.mem_append.mp hmem with hm | hm
          · obtain ⟨k2, o2, he⟩ := validateLoop_trace_dry env u _ _ _ _ hm
            exact absurd he (by simp)
          · simp at hm
        · have hacc2 : (er.action != "accept".data) = false := by
            rwa [Bool.not_eq_true] at hacc
          simp only [hacc2, Bool.false_eq_true, if_false] at hmem
          by_cases hconf : (er.confirm == some (.boolVal true)) = true
          · simp only [hconf, if_true] at hmem
            rcases List.mem_append.mp hmem with hm | hm
            · obtain ⟨k2, o2, he⟩ := validateLoop_trace_dry env u _ _ _ _ hm
              exact absurd he (by simp)
            · rcases List.mem_cons.mp hm with hm | hm
              · exact absurd hm (by simp)
              · obtain ⟨i, hi, he⟩ := realApplyLoop_mem env u _ _ _ hm
                simp only [ApplyAction.realApplyCall.injEq] at he
                obtain ⟨hc2, hk, ho⟩ := he
                have haccept : er.action = "accept".data := by simpa using hacc2
                have hconf2 : er.confirm = some (.boolVal true) := by simpa using hconf
                exact ⟨hc2, ⟨er, rfl, haccept, hconf2⟩, ps, rfl, i, hi, hk.symm, ho⟩
          · have hconf2 : (er.confirm == some (.boolVal true)) = false := by
              rwa [Bool.not_eq_true] at hconf
            simp only [hconf2, Bool.false_eq_true, if_false] at hmem
            rcases List.mem_append.mp hmem with hm | hm
            · obtain ⟨k2, o2, he⟩ := validateLoop_trace_dry env u _ _ _ _ hm
              exact absurd he (by simp)
            · simp at hm
  · rw [hcc] at hmem
    simp at hmem

theorem range_getD (n pos : Nat) (hpos : pos < n) : (List.range n).getD pos 0 = pos := by
  have hlen : pos < (List.range n).length := by simpa using hpos
  rw [List.getD_eq_getElem _ _ hlen]
  simp

/-- A cluster on which every step succeeds reaches the applied outcome,
with a real apply recorded for every object index. -/
theorem applyCluster_all_ok (env : ClusterEnv) (u : Str) (h : Heap) (n : Nat)
    (hc : env.clientErr = none)
    (hval : ∀ pos, pos < n →
        (h.read pos).kind ≠ [] ∧ ∃ g, env.resolve (lowerStr (h.read pos).kind) = .ok g)
    (hdry : ∀ j, env.dryRunErr j = none)
    (her : ElicitConfirmed env)
    (hap : ∀ k o, ∃ res, env.applyRes k o = .ok res)
    (hlen : n ≤ h.cells.length) :
    (∃ objs ss, (applyCluster env u h (List.range n)).2.2 = .applied objs ss)
      ∧ ∀ k, k < n → ∃ o,
          ApplyAction.realApplyCall u k o ∈ (applyCluster env u h (List.range n)).1 := by
  obtain ⟨ps, hps⟩ :=
    validateLoop_all_ok env u (List.range n) h 0
      (by
        intro pos hpos
        have hpn : pos < n := by simpa using hpos
        rw [range_getD n pos hpn]
        exact ⟨(hval pos hpn).1, (hval pos hpn).2, by rw [Nat.zero_add]; exact hdry pos⟩)
      (List.nodup_range n)
      (fun r hr => Nat.lt_of_lt_of_le (List.mem_range.mp hr) hlen)
  obtain ⟨er, herr, hacca, hconf⟩ := her
  have hacc2 : (er.action != "accept".data) = false := by simp [hacca]
  obtain ⟨hilen, hidx⟩ := validateLoop_ok_infos env u (List.range n) h 0 ps hps
  obtain ⟨⟨rps, hrps⟩, hmems⟩ :=
    realApplyLoop_all_ok env u hap ps.1 (validateLoop env u h 0 (List.range n)).2.1
  constructor
  · refine ⟨rps.1, rps.2, ?_⟩
    show (applyCluster env u h (List.range n)).2.2 = _
    unfold applyCluster
    rw [hc]
    simp only [hps, herr, hacc2, Bool.false_eq_true, if_false, hconf, beq_self_eq_true,
      if_true, hrps]
  · intro k hk
    have hklen : k < ps.1.length := by
      rw [hilen]
      simpa using hk
    have hmemk : ps.1.getD k default ∈ ps.1 := by
      rw [List.getD_eq_getElem _ _ hklen]
      exact List.getElem_mem _
    have hkidx : (ps.1.getD k default).idx = k := by
      have := (hidx k (by simpa using hk)).1
      simpa using this
    refine ⟨(validateLoop env u h 0 (List.range n)).2.1.read (ps.1.getD k default).cell, ?_⟩
    have hmm := hmems (ps.1.getD k default) hmemk
    rw [hkidx] at hmm
    show _ ∈ (applyCluster env u h (List.range n)).1
    unfold applyCluster
    rw [hc]
    simp only [hps, herr, hacc2, Bool.false_eq_true, if_false, hconf, beq_self_eq_true,
      if_true]
    exact List.mem_append_right _ (List.mem_cons_of_mem _ hmm)

/-- The exit store of a cluster that reached the applied outcome evolved
from its entry store only by namespace defaulting, cell by cell. -/
theorem applyCluster_applied_inv (env : ClusterEnv) (u : Str) (h : Heap) (n : Nat)
    (objs : List KObj) (ss : List Str)
    (ha : (applyCluster env u h (List.range n)).2.2 = .applied objs ss)
    (hlen : n ≤ h.cells.length) :
    n ≤ (applyCluster env u h (List.range n)).2.1.cells.length
      ∧ ∀ j, j < n →
          evolvedNs (h.read j) ((applyCluster env u h (List.range n)).2.1.read j) := by
  have hcnone : env.clientErr = none := by
    rcases hcc : env.clientErr with _ | e
    · rfl
    · unfold applyCluster at ha
      rw [hcc] at ha
      simp at ha
  have hok : ∃ ps, (validateLoop env u h 0 (List.range n)).2.2 = .ok ps := by
    rcases hv : (validateLoop env u h 0 (List.range n)).2.2 with e | ps
    · unfold applyCluster at ha
      rw [hcnone] at ha
      simp only [hv] at ha
      simp at ha
    · exact ⟨ps, rfl⟩
  obtain ⟨ps, hps⟩ := hok
  have htup : validateLoop env u h 0 (List.range n)
      = ((validateLoop env u h 0 (List.range n)).1,
         (validateLoop env u h 0 (List.range n)).2.1, .ok ps) := by
    rw [← hps]
  obtain ⟨hlen2, _, hinf⟩ :=
    validateLoop_ok_cells env u (List.range n) h 0 _ _ ps htup (List.nodup_range n)
      (fun r hr => Nat.lt_of_lt_of_le (List.mem_range.mp hr) hlen)
  obtain ⟨hilen, hidx⟩ := validateLoop_ok_infos env u (List.range n) h 0 ps hps
  rw [applyCluster_exit_heap env u h _ hcnone]
  constructor
  · omega
  · intro j hj
    have hjlen : j < ps.1.length := by
      rw [hilen]
      simpa using hj
    have hmemj : ps.1.getD j default ∈ ps.1 := by
      rw [List.getD_eq_getElem _ _ hjlen]
      exact List.getElem_mem _
    have hjcell : (ps.1.getD j default).cell = j := by
      have := (hidx j (by simpa using hj)).2
      rw [range_getD n j hj] at this
      exact this
    have := (hinf (ps.1.getD j default) hmemj).2.2
    rw [hjcell] at this
    exact this

theorem applyCluster_validate_trace_sub (env : ClusterEnv) (u : Str) (h : Heap)
    (cells : List Nat) (hc : env.clientErr = none) :
    ∀ b ∈ (validateLoop env u h 0 cells).1, b ∈ (applyCluster env u h cells).1 := by
  intro b hb
  unfold applyCluster
  rw [hc]
  rcases hv2 : (validateLoop env u h 0 cells).2.2 with e | ps <;> simp only [hv2]
  · exact hb
  · rcases her : env.elicitRes with e | er <;> simp only [her]
    · exact List.mem_append_left _ hb
    · by_cases hacc : (er.action != "accept".data) = true
      · simp only [hacc, if_true]
        exact List.mem_append_left _ hb
      · have hacc2 : (er.action != "accept".data) = false := by
          rwa [Bool.not_eq_true] at hacc
        simp only [hacc2, Bool.false_eq_true, if_false]
        by_cases hcf : (er.confirm == some (.boolVal true)) = true
        · simp only [hcf, if_true]
          exact List.mem_append_left _ hb
        · have hcf2 : (er.confirm == some (.boolVal true)) = false := by
            rwa [Bool.not_eq_true] at hcf
          simp only [hcf2, Bool.false_eq_true, if_false]
          exact List.mem_append_left _ hb

theorem clustersLoop_mem (envOf : Str → ClusterEnv) (cells : List Nat) :
    ∀ (urls : List Str) (h : Heap) (a : ApplyAction),
      a ∈ (clustersLoop envOf h cells urls).1 →
      ∃ u h0, u ∈ urls ∧ a ∈ (applyCluster (envOf u) u h0 cells).1 := by
  intro urls
  induction urls with
  | nil =>
    intro h a ha
    simp [clustersLoop] at ha
  | cons u rest ih =>
    intro h a ha
    rcases hoc : (applyCluster (envOf u) u h cells).2.2 with e | t | ⟨objs, ss⟩
    · simp only [clustersLoop, hoc] at ha
      exact ⟨u, h, List.mem_cons_self _ _, ha⟩
    · simp only [clustersLoop, hoc] at ha
      exact ⟨u, h, List.mem_cons_self _ _, ha⟩
    · simp only [clustersLoop, hoc] at ha
      rcases List.mem_append.mp ha with ha | ha
      · exact ⟨u, h, List.mem_cons_self _ _, ha⟩
      · obtain ⟨u2, h0, hu2, ha2⟩ := ih _ _ ha
        exact ⟨u2, h0, List.mem_cons_of_mem _ hu2, ha2⟩

theorem clustersLoop_mem_inv (envOf : Str → ClusterEnv) (n : Nat) :
    ∀ (urls : List Str) (h : Heap), n ≤ h.cells.length →
      ∀ a, a ∈ (clustersLoop envOf h (List.range n) urls).1 →
      ∃ u h0, u ∈ urls ∧ n ≤ h0.cells.length
        ∧ (∀ j, j < n → evolvedNs (h.read j) (h0.read j))
        ∧ a ∈ (applyCluster (envOf u) u h0 (List.range n)).1
        ∧ ∀ b ∈ (applyCluster (envOf u) u h0 (List.range n)).1,
            b ∈ (clustersLoop envOf h (List.range n) urls).1 := by
  intro urls
  induction urls with
  | nil =>
    intro h hlen a ha
    simp [clustersLoop] at ha
  | cons u rest ih =>
    intro h hlen a ha
    rcases hoc : (applyCluster (envOf u) u h (List.range n)).2.2 with e | t | ⟨objs, ss⟩
    · simp only [clustersLoop, hoc] at ha
      exact ⟨u, h, List.mem_cons_self _ _, hlen, fun j _ => evolvedNs_refl _, ha,
        fun b hb => by simp only [clustersLoop, hoc]; exact hb⟩
    · simp only [clustersLoop, hoc] at ha
      exact ⟨u, h, List.mem_cons_self _ _, hlen, fun j _ => evolvedNs_refl _, ha,
        fun b hb => by simp only [clustersLoop, hoc]; exact hb⟩
    · simp only [clustersLoop, hoc] at ha
      rcases List.mem_append.mp ha with ha | ha
      · exact ⟨u, h, List.mem_cons_self _ _, hlen, fun j _ => evolvedNs_refl _, ha,
          fun b hb => by
            simp only [clustersLoop, hoc]
            exact List.mem_append_left _ hb⟩
      · obtain ⟨hlen2, hev⟩ := applyCluster_applied_inv (envOf u) u h n objs ss hoc hlen
        obtain ⟨u2, h0, hu2, hlen0, hev0, ha0, hsub⟩ := ih _ hlen2 a ha
        refine ⟨u2, h0, List.mem_cons_of_mem _ hu2, hlen0, ?_, ha0, ?_⟩
        · intro j hj
          exact evolvedNs_trans (hev j hj) (hev0 j hj)
        · intro b hb
          have hbm := hsub b hb
          simp only [clustersLoop, hoc]
          exact List.mem_append_right _ hbm

/-- With the objects up to index `k` having present, resolving kinds, the
dry-runs before `k` passing and the dry-run at `k` failing with `e`, the
validation pass stops with the dry-run failure message for the object at
`k` (whose kind and name the namespace-defaulting step preserves). -/
theorem validateLoop_fail (env : ClusterEnv) (c : Str) :
    ∀ (rs : List Nat) (h : Heap) (idx k : Nat) (e : Str),
      k < rs.length →
      rs.Nodup → (∀ r ∈ rs, r < h.cells.length) →
      (∀ pos, pos ≤ k →
          (h.read (rs.getD pos 0)).kind ≠ []
            ∧ ∃ g, env.resolve (lowerStr (h.read (rs.getD pos 0)).kind) = .ok g) →
      (∀ pos, pos < k → env.dryRunErr (idx + pos) = none) →
      env.dryRunErr (idx + k) = some e →
      (validateLoop env c h idx rs).2.2
        = .error (dryRunFailMsg (h.read (rs.getD k 0)).kind
            (h.read (rs.getD k 0)).name e) := by
  intro rs
  induction rs with
  | nil =>
    intro h idx k e hk
    exact absurd hk (by simp)
  | cons r rs ih =>
    intro h idx k e hk hnd hb hins hdry hfail
    rw [List.nodup_cons] at hnd
    obtain ⟨hrni, hnd2⟩ := hnd
    have hbtail : ∀ x ∈ rs, x < h.cells.length :=
      fun x hx => hb x (List.mem_cons_of_mem _ hx)
    have h0 := hins 0 (Nat.zero_le _)
    simp only [List.getD_cons_zero] at h0
    obtain ⟨hkind, ⟨g, hres⟩⟩ := h0
    have hkind2 : ((h.read r).kind == []) = false := by simpa using hkind
    cases k with
    | zero =>
      rw [Nat.add_zero] at hfail
      show (validateLoop env c h idx (r :: rs)).2.2 = _
      simp only [validateLoop, hkind2, Bool.false_eq_true, if_false, hres, hfail,
        List.getD_cons_zero]
      rw [nsDefault_kind, nsDefault_name]
    | succ k =>
      have hkr : k < rs.length := by
        have := hk
        simp only [List.length_cons] at this
        omega
      have hdry0 : env.dryRunErr idx = none := by
        have hd := hdry 0 (Nat.succ_pos _)
        rwa [Nat.add_zero] at hd
      have hH3ne : ∀ j, j < h.cells.length → j ≠ r →
          (dryRunCopy (nsDefault h r g.2).1 (nsDefault h r g.2).2
              (env.dryRunEffect idx)).1.read j = h.read j := by
        intro j hj hne
        rw [dryRunCopy_read _ _ _ (by rw [nsDefault_len]; exact hj)]
        exact nsDefault_read_ne _ _ _ hne
      have hH3len :
          (dryRunCopy (nsDefault h r g.2).1 (nsDefault h r g.2).2
              (env.dryRunEffect idx)).1.cells.length = h.cells.length + 1 := by
        rw [dryRunCopy_len, nsDefault_len]
      have hread : ∀ pos, pos ≤ k →
          (dryRunCopy (nsDefault h r g.2).1 (nsDefault h r g.2).2
              (env.dryRunEffect idx)).1.read (rs.getD pos 0) = h.read (rs.getD pos 0) := by
        intro pos hpos
        have hposlen : pos < rs.length := Nat.lt_of_le_of_lt hpos hkr
        have hmem : rs.getD pos 0 ∈ rs := by
          rw [List.getD_eq_getElem _ _ hposlen]
          exact List.getElem_mem _
        have hne : rs.getD pos 0 ≠ r := fun he => hrni (he ▸ hmem)
        exact hH3ne _ (hbtail _ hmem) hne
      have hins2 : ∀ pos, pos ≤ k →
          ((dryRunCopy (nsDefault h r g.2).1 (nsDefault h r g.2).2
              (env.dryRunEffect idx)).1.read (rs.getD pos 0)).kind ≠ []
            ∧ ∃ g2, env.resolve
                (lowerStr ((dryRunCopy (nsDefault h r g.2).1 (nsDefault h r g.2).2
                    (env.dryRunEffect idx)).1.read (rs.getD pos 0)).kind) = .ok g2 := by
        intro pos hpos
        rw [hread pos hpos]
        have hp := hins (pos + 1) (Nat.succ_le_succ hpos)
        simpa only [List.getD_cons_succ] using hp
      have hdry2 : ∀ pos, pos < k → env.dryRunErr ((idx + 1) + pos) = none := by
        intro pos hpos
        have hd := hdry (pos + 1) (Nat.succ_lt_succ hpos)
        rwa [show idx + (pos + 1) = (idx + 1) + pos by omega] at hd
      have hfail2 : env.dryRunErr ((idx + 1) + k) = some e := by
        rwa [show (idx + 1) + k = idx + (k + 1) by omega]
      have hrec := ih (dryRunCopy (nsDefault h r g.2).1 (nsDefault h r g.2).2
          (env.dryRunEffect idx)).1 (idx + 1) k e hkr hnd2
        (fun x hx => by rw [hH3len]; exact Nat.lt_succ_of_lt (hbtail x hx))
        hins2 hdry2 hfail2
      show (validateLoop env c h idx (r :: rs)).2.2 = _
      simp only [validateLoop, hkind2, Bool.false_eq_true, if_false, hres, hdry0,
        List.getD_cons_succ]
      rw [hrec, hread k (Nat.le_refl _)]

/-- A cluster whose validation fails at index `k` with a dry-run error
reports that error as its outcome. -/
theorem applyCluster_fail (env : ClusterEnv) (u : Str) (h : Heap) (n k : Nat) (e : Str)
    (hc : env.clientErr = none)
    (hk : k < n)
    (hlen : n ≤ h.cells.length)
    (hins : ∀ pos, pos ≤ k →
        (h.read pos).kind ≠ [] ∧ ∃ g, env.resolve (lowerStr (h.read pos).kind) = .ok g)
    (hdry : ∀ pos, pos < k → env.dryRunErr pos = none)
    (hfail : env.dryRunErr k = some e) :
    (applyCluster env u h (List.range n)).2.2
      = .failed (dryRunFailMsg (h.read k).kind (h.read k).name e) := by
  have hv := validateLoop_fail env u (List.range n) h 0 k e (by simpa using hk)
    (List.nodup_range n)
    (fun r hr => Nat.lt_of_lt_of_le (List.mem_range.mp hr) hlen)
    (by
      intro pos hpos
      rw [range_getD n pos (Nat.lt_of_le_of_lt hpos hk)]
      exact hins pos hpos)
    (by
      intro pos hpos
      rw [Nat.zero_add]
      exact hdry pos hpos)
    (by rw [Nat.zero_add]; exact hfail)
  rw [range_getD n k hk] at hv
  unfold applyCluster
  rw [hc]
  simp only [hv]

/-- The fan-out with every cluster of the prefix fully succeeding and the
next cluster failing: the loop reports that cluster's failure. -/
theorem clustersLoop_fail_after (envOf : Str → ClusterEnv) (objs : List KObj) (u : Str)
    (rest : List Str) (t : Str) :
    ∀ (us : List Str) (h : Heap),
      objs.length ≤ h.cells.length →
      (∀ j, j < objs.length → evolvedNs (objs.getD j default) (h.read j)) →
      (∀ v ∈ us, EnvAllOk (envOf v) objs) →
      (∀ h2 : Heap, objs.length ≤ h2.cells.length →
        (∀ j, j < objs.length → evolvedNs (objs.getD j default) (h2.read j)) →
        (applyCluster (envOf u) u h2 (List.range objs.length)).2.2 = .failed t) →
      (clustersLoop envOf h (List.range objs.length) (us ++ u :: rest)).2 = .err t := by
  intro us
  induction us with
  | nil =>
    intro h hlen hinv _ hu
    have hoc := hu h hlen hinv
    show (clustersLoop envOf h (List.range objs.length) (u :: rest)).2 = _
    simp only [clustersLoop, hoc]
  | cons v us ih =>
    intro h hlen hinv hprev hu
    obtain ⟨hvc, ⟨hvval, hvdry⟩, hvel, hvap⟩ := hprev v (List.mem_cons_self _ _)
    have hvalh : ∀ pos, pos < objs.length →
        (h.read pos).kind ≠ []
          ∧ ∃ g, (envOf v).resolve (lowerStr (h.read pos).kind) = .ok g := by
      intro pos hpos
      have hkd := (evolvedNs_kind (hinv pos hpos)).1
      rw [hkd]
      exact hvval pos hpos
    obtain ⟨⟨objsA, ssA, hA⟩, -⟩ :=
      applyCluster_all_ok (envOf v) v h objs.length hvc hvalh hvdry hvel hvap hlen
    obtain ⟨hlen2, hev2⟩ := applyCluster_applied_inv (envOf v) v h objs.length objsA ssA hA hlen
    have hinv2 : ∀ j, j < objs.length →
        evolvedNs (objs.getD j default)
          ((applyCluster (envOf v) v h (List.range objs.length)).2.1.read j) :=
      fun j hj => evolvedNs_trans (hinv j hj) (hev2 j hj)
    have hres :=
      ih ((applyCluster (envOf v) v h (List.range objs.length)).2.1) hlen2 hinv2
        (fun w hw => hprev w (List.mem_cons_of_mem _ hw)) hu
    show (clustersLoop envOf h (List.range objs.length) ((v :: us) ++ u :: rest)).2 = _
    rw [List.cons_append]
    simp only [clustersLoop, hA]
    rw [hres]

/-- C3: a real (non-dry-run) apply recorded anywhere in a `resource_apply`
run certifies that, on that cluster, every object passed its dry-run and
the user confirmed; and when the dry-run fails for the k-th decoded object
of a cluster the fan-out reaches (every earlier cluster fully succeeding,
the kinds up to k resolving and the earlier dry-runs passing), the handler
returns exactly that object's dry-run error and performs no real apply for
any object on that cluster. -/
theorem C3_dry_run_gates_real_apply (envOf : Str → ClusterEnv) (objs : List KObj)
    (c : Str) :
    (∀ (urls : List Str) (k : Nat) (o : KObj),
        ApplyAction.realApplyCall c k o ∈ (applyHandler envOf urls objs).1 →
        (∀ j, j < objs.length → (envOf c).dryRunErr j = none) ∧ ElicitConfirmed (envOf c))
  ∧ ∀ (us rest : List Str) (k : Nat) (e : Str),
      (∀ v ∈ us, EnvAllOk (envOf v) objs) →
      (envOf c).clientErr = none →
      k < objs.length →
      (∀ j, j ≤ k → (objs.getD j default).kind ≠ []
          ∧ ∃ g, (envOf c).resolve (lowerStr (objs.getD j default).kind) = .ok g) →
      (∀ j, j < k → (envOf c).dryRunErr j = none) →
      (envOf c).dryRunErr k = some e →
      (applyHandler envOf (us ++ c :: rest) objs).2
          = .err (dryRunFailMsg (objs.getD k default).kind (objs.getD k default).name e)
        ∧ ∀ (j : Nat) (o : KObj),
            ApplyAction.realApplyCall c j o ∉ (applyHandler envOf (us ++ c :: rest) objs).1 := by
  have part1 : ∀ (urls : List Str) (k : Nat) (o : KObj),
      ApplyAction.realApplyCall c k o ∈ (applyHandler envOf urls objs).1 →
      (∀ j, j < objs.length → (envOf c).dryRunErr j = none)
        ∧ ElicitConfirmed (envOf c) := by
    intro urls k o hmem
    have hmem2 : ApplyAction.realApplyCall c k o
        ∈ (clustersLoop envOf ⟨objs⟩ (List.range objs.length) urls).1 := hmem
    obtain ⟨u, h0, hu, hac⟩ :=
      clustersLoop_mem envOf (List.range objs.length) urls ⟨objs⟩ _ hmem2
    obtain ⟨hcu, hel, ps, hps, -⟩ := applyCluster_realApply_mem (envOf u) u h0 _ hac
    subst hcu
    constructor
    · intro j hj
      have hd := validateLoop_ok_dry (envOf c) c (List.range objs.length) h0 0 ps hps j
        (by simpa using hj)
      simpa using hd
    · exact hel
  refine ⟨part1, ?_⟩
  intro us rest k e hprev hcc hk hins hdry hfail
  constructor
  · have hres := clustersLoop_fail_after envOf objs c rest
      (dryRunFailMsg (objs.getD k default).kind (objs.getD k default).name e)
      us ⟨objs⟩ (Nat.le_refl _) (fun j _ => evolvedNs_refl _) hprev
      (by
        intro h2 hlen2 hinv2
        have hmsg := evolvedNs_kind (hinv2 k hk)
        have hfl := applyCluster_fail (envOf c) c h2 objs.length k e hcc hk hlen2
          (by
            intro pos hpos
            have hkd := evolvedNs_kind (hinv2 pos (Nat.lt_of_le_of_lt hpos hk))
            rw [hkd.1]
            exact hins pos hpos)
          hdry hfail
        rw [hfl, hmsg.1, hmsg.2])
    show (match (clustersLoop envOf ⟨objs⟩ (List.range objs.length) (us ++ c :: rest)).2 with
          | .err e2 => ApplyHandlerResult.err e2
          | .cancelled t2 => ApplyHandlerResult.cancelled t2
          | .done os ss => ApplyHandlerResult.success (successMsg os.length ss) os)
        = ApplyHandlerResult.err
            (dryRunFailMsg (objs.getD k default).kind (objs.getD k default).name e)
    rw [hres]
  · intro j o hmem
    have hd := (part1 (us ++ c :: rest) j o hmem).1 k hk
    rw [hd] at hfail
    exact Option.noConfusion hfail

/-- C10: the object recorded by every real apply is exactly the object
recorded by that index's dry-run on the same cluster — the decoded
object, at most namespace-defaulted — for every possible in-place
mutation the dry-run call may perform on the copy it was handed. -/
theorem C10_real_apply_is_validated_object (envOf : Str → ClusterEnv) (urls : List Str)
    (objs : List KObj) (c : Str) (k : Nat) (o : KObj)
    (hmem : ApplyAction.realApplyCall c k o ∈ (applyHandler envOf urls objs).1) :
    ApplyAction.dryRunCall c k o ∈ (applyHandler envOf urls objs).1
      ∧ evolvedNs (objs.getD k default) o := by
  have hmem2 : ApplyAction.realApplyCall c k o
      ∈ (clustersLoop envOf ⟨objs⟩ (List.range objs.length) urls).1 := hmem
  obtain ⟨u, h0, hu, hlen, hev, hac, hsub⟩ :=
    clustersLoop_mem_inv envOf objs.length urls ⟨objs⟩ (Nat.le_refl _) _ hmem2
  obtain ⟨hcu, hel, ps, hps, i, hi, hik, ho⟩ := applyCluster_realApply_mem (envOf u) u h0 _ hac
  subst hcu
  have hcnone : (envOf c).clientErr = none := by
    rcases hcc : (envOf c).clientErr with _ | e
    · rfl
    · unfold applyCluster at hac
      rw [hcc] at hac
      simp at hac
  obtain ⟨pos, hpos, hgeti⟩ := List.getElem_of_mem hi
  have hgetd : ps.1.getD pos default = i := by
    rw [List.getD_eq_getElem _ _ hpos, hgeti]
  obtain ⟨hilen, hidx⟩ := validateLoop_ok_infos (envOf c) c (List.range objs.length) h0 0 ps hps
  have hposlen : pos < (List.range objs.length).length := by
    rw [← hilen]
    exact hpos
  have hidxpos := (hidx pos hposlen).1
  have hcellpos := (hidx pos hposlen).2
  rw [hgetd] at hidxpos hcellpos
  have hposn : pos < objs.length := by simpa using hposlen
  have hposk : pos = k := by
    rw [hik] at hidxpos
    omega
  have hcellk : i.cell = k := by
    rw [hcellpos, range_getD _ _ hposn, hposk]
  have htup : validateLoop (envOf c) c h0 0 (List.range objs.length)
      = ((validateLoop (envOf c) c h0 0 (List.range objs.length)).1,
         (validateLoop (envOf c) c h0 0 (List.range objs.length)).2.1, .ok ps) := by
    rw [← hps]
  obtain ⟨-, -, hinf⟩ :=
    validateLoop_ok_cells (envOf c) c (List.range objs.length) h0 0 _ _ ps htup
      (List.nodup_range _)
      (fun r hr => Nat.lt_of_lt_of_le (List.mem_range.mp hr) hlen)
  obtain ⟨hcellmem, hdmem, hevi⟩ := hinf i hi
  constructor
  · rw [hik, ← ho] at hdmem
    exact hsub _ (applyCluster_validate_trace_sub (envOf c) c h0 _ hcnone _ hdmem)
  · rw [← ho, hcellk] at hevi
    have hbase := hev k (hposk ▸ hposn)
    have hread0 : (Heap.mk objs).read k = objs.getD k default := rfl
    rw [hread0] at hbase
    exact evolvedNs_trans hbase hevi

/-- A cluster whose validation succeeds but whose confirmation elicit is
declined (or not confirmed) ends in the cancelled outcome with the
corresponding text. -/
theorem applyCluster_cancel (env : ClusterEnv) (u : Str) (h : Heap) (n : Nat)
    (hc : env.clientErr = none)
    (hval : ∀ pos, pos < n →
        (h.read pos).kind ≠ [] ∧ ∃ g, env.resolve (lowerStr (h.read pos).kind) = .ok g)
    (hdry : ∀ j, env.dryRunErr j = none)
    (hlen : n ≤ h.cells.length)
    (er : ConfirmOutcome) (her : env.elicitRes = .ok er) :
    (er.action ≠ "accept".data →
      (applyCluster env u h (List.range n)).2.2
        = .cancelled "Operation cancelled by user".data)
  ∧ (er.action = "accept".data → er.confirm ≠ some (.boolVal true) →
      (applyCluster env u h (List.range n)).2.2
        = .cancelled "Operation cancelled - user did not confirm".data) := by
  obtain ⟨ps, hps⟩ :=
    validateLoop_all_ok env u (List.range n) h 0
      (by
        intro pos hpos
        have hpn : pos < n := by simpa using hpos
        rw [range_getD n pos hpn]
        exact ⟨(hval pos hpn).1, (hval pos hpn).2, by rw [Nat.zero_add]; exact hdry pos⟩)
      (List.nodup_range n)
      (fun r hr => Nat.lt_of_lt_of_le (List.mem_range.mp hr) hlen)
  constructor
  · intro hna
    have hacc : (er.action != "accept".data) = true := by simpa using hna
    unfold applyCluster
    rw [hc]
    simp only [hps, her, hacc, if_true]
  · intro hacc hnc
    have hacc2 : (er.action != "accept".data) = false := by simp [hacc]
    have hconf : (er.confirm == some (.boolVal true)) = false := by simpa using hnc
    unfold applyCluster
    rw [hc]
    simp only [hps, her, hacc2, Bool.false_eq_true, if_false, hconf]

/-- The fan-out, with every cluster of the prefix fully succeeding and the
next cluster cancelling: the loop result is the cancellation, and the
trace already records a real apply on every prefix cluster for every
object. -/
theorem clustersLoop_cancel_after (envOf : Str → ClusterEnv) (objs : List KObj) (u : Str)
    (rest : List Str) (t : Str) :
    ∀ (us : List Str) (h : Heap),
      objs.length ≤ h.cells.length →
      (∀ j, j < objs.length → evolvedNs (objs.getD j default) (h.read j)) →
      (∀ v ∈ us, EnvAllOk (envOf v) objs) →
      (∀ h2 : Heap, objs.length ≤ h2.cells.length →
        (∀ j, j < objs.length → evolvedNs (objs.getD j default) (h2.read j)) →
        (applyCluster (envOf u) u h2 (List.range objs.length)).2.2 = .cancelled t) →
      (clustersLoop envOf h (List.range objs.length) (us ++ u :: rest)).2 = .cancelled t
        ∧ ∀ v ∈ us, ∀ k, k < objs.length → ∃ o,
            ApplyAction.realApplyCall v k o
              ∈ (clustersLoop envOf h (List.range objs.length) (us ++ u :: rest)).1 := by
  intro us
  induction us with
  | nil =>
    intro h hlen hinv _ hu
    have hoc := hu h hlen hinv
    constructor
    · show (clustersLoop envOf h (List.range objs.length) (u :: rest)).2 = _
      simp only [clustersLoop, hoc]
    · intro v hv
      exact absurd hv (by simp)
  | cons v us ih =>
    intro h hlen hinv hprev hu
    obtain ⟨hvc, ⟨hvval, hvdry⟩, hvel, hvap⟩ := hprev v (List.mem_cons_self _ _)
    have hvalh : ∀ pos, pos < objs.length →
        (h.read pos).kind ≠ []
          ∧ ∃ g, (envOf v).resolve (lowerStr (h.read pos).kind) = .ok g := by
      intro pos hpos
      have hkd := (evolvedNs_kind (hinv pos hpos)).1
      rw [hkd]
      exact hvval pos hpos
    obtain ⟨⟨objsA, ssA, hA⟩, hmems⟩ :=
      applyCluster_all_ok (envOf v) v h objs.length hvc hvalh hvdry hvel hvap hlen
    obtain ⟨hlen2, hev2⟩ := applyCluster_applied_inv (envOf v) v h objs.length objsA ssA hA hlen
    have hinv2 : ∀ j, j < objs.length →
        evolvedNs (objs.getD j default)
          ((applyCluster (envOf v) v h (List.range objs.length)).2.1.read j) :=
      fun j hj => evolvedNs_trans (hinv j hj) (hev2 j hj)
    obtain ⟨hres, hmem2⟩ :=
      ih ((applyCluster (envOf v) v h (List.range objs.length)).2.1) hlen2 hinv2
        (fun w hw => hprev w (List.mem_cons_of_mem _ hw)) hu
    constructor
    · show (clustersLoop envOf h (List.range objs.length) ((v :: us) ++ u :: rest)).2 = _
      rw [List.cons_append]
      simp only [clustersLoop, hA]
      rw [hres]
    · intro w hw k hk
      rcases List.mem_cons.mp hw with hw | hw
      · subst hw
        obtain ⟨o, ho⟩ := hmems k hk
        refine ⟨o, ?_⟩
        show _ ∈ (clustersLoop envOf h (List.range objs.length) ((w :: us) ++ u :: rest)).1
        rw [List.cons_append]
        simp only [clustersLoop, hA]
        exact List.mem_append_left _ ho
      · obtain ⟨o, ho⟩ := hmem2 w hw k hk
        refine ⟨o, ?_⟩
        show _ ∈ (clustersLoop envOf h (List.range objs.length) ((v :: us) ++ u :: rest)).1
        rw [List.cons_append]
        simp only [clustersLoop, hA]
        exact List.mem_append_right _ ho

/-- C9: in a multi-cluster apply, when every cluster of a prefix fully
succeeds and the user then declines (or does not confirm) the next
cluster's confirmation, the handler returns the corresponding
non-error cancellation text with no structured payload — even though a
real apply of every object is already recorded on each prefix cluster,
none of which is rolled back or reported. -/
theorem C9_cancel_discards_earlier_applies (envOf : Str → ClusterEnv) (us : List Str)
    (u : Str) (rest : List Str) (objs : List KObj)
    (hprev : ∀ v ∈ us, EnvAllOk (envOf v) objs)
    (huc : (envOf u).clientErr = none)
    (huval : ValidateOk (envOf u) objs)
    (er : ConfirmOutcome) (her : (envOf u).elicitRes = .ok er) :
    (er.action ≠ "accept".data →
      (applyHandler envOf (us ++ u :: rest) objs).2
          = .cancelled "Operation cancelled by user".data
        ∧ (applyHandler envOf (us ++ u :: rest) objs).2.payload = none
        ∧ ∀ v ∈ us, ∀ k, k < objs.length → ∃ o,
            ApplyAction.realApplyCall v k o ∈ (applyHandler envOf (us ++ u :: rest) objs).1)
  ∧ (er.action = "accept".data → er.confirm ≠ some (.boolVal true) →
      (applyHandler envOf (us ++ u :: rest) objs).2
          = .cancelled "Operation cancelled - user did not confirm".data
        ∧ (applyHandler envOf (us ++ u :: rest) objs).2.payload = none
        ∧ ∀ v ∈ us, ∀ k, k < objs.length → ∃ o,
            ApplyAction.realApplyCall v k o ∈ (applyHandler envOf (us ++ u :: rest) objs).1) := by
  obtain ⟨huval1, huval2⟩ := huval
  have hcanc : ∀ (t : Str),
      ((∀ h2 : Heap, objs.length ≤ h2.cells.length →
          (∀ j, j < objs.length → evolvedNs (objs.getD j default) (h2.read j)) →
          (applyCluster (envOf u) u h2 (List.range objs.length)).2.2 = .cancelled t) →
        (applyHandler envOf (us ++ u :: rest) objs).2 = .cancelled t
          ∧ (applyHandler envOf (us ++ u :: rest) objs).2.payload = none
          ∧ ∀ v ∈ us, ∀ k, k < objs.length → ∃ o,
              ApplyAction.realApplyCall v k o
                ∈ (applyHandler envOf (us ++ u :: rest) objs).1) := by
    intro t hu
    obtain ⟨hres, hmem⟩ :=
      clustersLoop_cancel_after envOf objs u rest t us ⟨objs⟩ (Nat.le_refl _)
        (fun j _ => evolvedNs_refl _) hprev hu
    have hr2 : (applyHandler envOf (us ++ u :: rest) objs).2
        = .cancelled t := by
      show (match (clustersLoop envOf ⟨objs⟩ (List.range objs.length) (us ++ u :: rest)).2 with
            | .err e => ApplyHandlerResult.err e
            | .cancelled t2 => ApplyHandlerResult.cancelled t2
            | .done os ss => ApplyHandlerResult.success (successMsg os.length ss) os)
          = ApplyHandlerResult.cancelled t
      rw [hres]
    refine ⟨hr2, by rw [hr2]; rfl, ?_⟩
    intro v hv k hk
    obtain ⟨o, ho⟩ := hmem v hv k hk
    exact ⟨o, ho⟩
  constructor
  · intro hna
    refine hcanc _ ?_
    intro h2 hlen2 hinv2
    have hvalh : ∀ pos, pos < objs.length →
        (h2.read pos).kind ≠ []
          ∧ ∃ g, (envOf u).resolve (lowerStr (h2.read pos).kind) = .ok g := by
      intro pos hpos
      have hkd := (evolvedNs_kind (hinv2 pos hpos)).1
      rw [hkd]
      exact huval1 pos hpos
    exact (applyCluster_cancel (envOf u) u h2 objs.length huc hvalh huval2 hlen2 er her).1 hna
  · intro hacc hnc
    refine hcanc _ ?_
    intro h2 hlen2 hinv2
    have hvalh : ∀ pos, pos < objs.length →
        (h2.read pos).kind ≠ []
          ∧ ∃ g, (envOf u).resolve (lowerStr (h2.read pos).kind) = .ok g := by
      intro pos hpos
      have hkd := (evolvedNs_kind (hinv2 pos hpos)).1
      rw [hkd]
      exact huval1 pos hpos
    exact (applyCluster_cancel (envOf u) u h2 objs.length huc hvalh huval2 hlen2 er her).2
      hacc hnc

theorem C3_witness :
    ((∀ j, j < 1 → (sampleFailEnvOf "https://c1".data).dryRunErr j = none)
        ∧ ElicitConfirmed (sampleFailEnvOf "https://c1".data))
  ∧ (applyHandler sampleFailEnvOf ["https://c1".data, "https://c2".data] [sampleObj]).2
        = .err (dryRunFailMsg "Pod".data "p1".data "admission denied".data)
  ∧ ∀ (j : Nat) (o : KObj),
      ApplyAction.realApplyCall "https://c2".data j o
        ∉ (applyHandler sampleFailEnvOf ["https://c1".data, "https://c2".data] [sampleObj]).1 := by
  have hm : ApplyAction.realApplyCall "https://c1".data 0
      ⟨"Pod".data, "p1".data, "default".data, "spec".data⟩
      ∈ (applyHandler sampleFailEnvOf
          ["https://c1".data, "https://c2".data] [sampleObj]).1 := by decide
  have hp1 := (C3_dry_run_gates_real_apply sampleFailEnvOf [sampleObj] "https://c1".data).1
    ["https://c1".data, "https://c2".data] 0
    ⟨"Pod".data, "p1".data, "default".data, "spec".data⟩ hm
  have hp2 := (C3_dry_run_gates_real_apply sampleFailEnvOf [sampleObj] "https://c2".data).2
    ["https://c1".data] [] 0 "admission denied".data
    (by
      intro v hv
      simp only [List.mem_singleton] at hv
      subst hv
      refine ⟨rfl, ⟨?_, fun j => rfl⟩,
        ⟨⟨"accept".data, some (.boolVal true)⟩, rfl, rfl, rfl⟩, fun k o => ⟨o, rfl⟩⟩
      intro j hj
      have hj0 : j = 0 := Nat.lt_one_iff.mp hj
      subst hj0
      exact ⟨by decide, ⟨(⟨[], "v1".data, "pods".data⟩, true), rfl⟩⟩)
    rfl
    (Nat.one_pos)
    (by
      intro j hj
      have hj0 : j = 0 := Nat.le_zero.mp hj
      subst hj0
      exact ⟨by decide, ⟨(⟨[], "v1".data, "pods".data⟩, true), rfl⟩⟩)
    (fun j hj => absurd hj (Nat.not_lt_zero j))
    rfl
  exact ⟨⟨hp1.1, hp1.2⟩, hp2.1, hp2.2⟩

theorem C10_witness :
    ApplyAction.dryRunCall "https://c1".data 0
        ⟨"Pod".data, "p1".data, "default".data, "spec".data⟩
        ∈ (applyHandler (fun _ => sampleOkEnv) ["https://c1".data] [sampleObj]).1
      ∧ evolvedNs sampleObj ⟨"Pod".data, "p1".data, "default".data, "spec".data⟩ :=
  C10_real_apply_is_validated_object (fun _ => sampleOkEnv) ["https://c1".data] [sampleObj]
    "https://c1".data 0 ⟨"Pod".data, "p1".data, "default".data, "spec".data⟩ (by decide)

theorem C9_witness :
    (applyHandler sampleEnvOf ["https://c1".data, "https://c2".data] [sampleObj]).2
        = .cancelled "Operation cancelled by user".data
      ∧ (applyHandler sampleEnvOf
          ["https://c1".data, "https://c2".data] [sampleObj]).2.payload = none
      ∧ ∃ o, ApplyAction.realApplyCall "https://c1".data 0 o
          ∈ (applyHandler sampleEnvOf ["https://c1".data, "https://c2".data] [sampleObj]).1 := by
  have h := (C9_cancel_discards_earlier_applies sampleEnvOf ["https://c1".data]
      "https://c2".data [] [sampleObj]
      (by
        intro v hv
        simp only [List.mem_singleton] at hv
        subst hv
        refine ⟨rfl, ⟨?_, fun j => rfl⟩,
          ⟨⟨"accept".data, some (.boolVal true)⟩, rfl, rfl, rfl⟩, fun k o => ⟨o, rfl⟩⟩
        intro j hj
        have hj0 : j = 0 := Nat.lt_one_iff.mp hj
        subst hj0
        exact ⟨by decide, ⟨(⟨[], "v1".data, "pods".data⟩, true), rfl⟩⟩)
      rfl
      (by
        refine ⟨?_, fun j => rfl⟩
        intro j hj
        have hj0 : j = 0 := Nat.lt_one_iff.mp hj
        subst hj0
        exact ⟨by decide, ⟨(⟨[], "v1".data, "pods".data⟩, true), rfl⟩⟩)
      ⟨"decline".data, none⟩ rfl).1 (by decide)
  exact ⟨h.1, h.2.1, h.2.2 "https://c1".data (by decide) 0 (by decide)⟩

end KMcp
